import Mathlib

/-!
The program cubing_tools: shuffle, sample and CNF export of cube files.

A shallow embedding of `src/cubing_tools.cpp`.  A file is the list of its lines
(what `std::getline` yields), standard output and standard error are lists of lines
(each `<< std::endl` ends one line), and `int` values are integers kept inside the
32-bit range by the extraction operator.  The random engine and the uniform integer
distribution of the standard library are a parameter (`Rng`).
-/

namespace CubingTools

/-! ## The random engine -/

/-- The standard library's random engine together with its uniform integer distribution:
`seed` is `std::mt19937`'s seeding, `uniform g hi` is one draw of
`std::uniform_int_distribution<>(0, hi)` from the engine in state `g`, returning the value
drawn (inside `[0, hi]` by its type) and the engine's next state. -/
structure Rng where
  State : Type
  seed : Nat → State
  uniform : State → (hi : Nat) → Fin (hi + 1) × State

/-- A small linear congruential engine, used to run the program on concrete inputs. -/
def lcg : Rng where
  State := Nat
  seed := fun s => s
  uniform := fun g hi =>
    (⟨g % (hi + 1), Nat.mod_lt _ (Nat.succ_pos hi)⟩, (g * 1103515245 + 12345) % 2147483648)

/-- The `std::iter_swap` of positions `i` and `j`. -/
def iterSwap {α : Type} (l : List α) (i j : Nat) : List α :=
  match l[i]?, l[j]? with
  | some x, some y => (l.set i y).set j x
  | _, _ => l

/-- One step of the shuffle loop: position `i` is swapped with a position drawn
uniformly from `[0, i]`. -/
def shuffleStep {α : Type} (R : Rng) (acc : List α × R.State) (i : Nat) : List α × R.State :=
  let d := R.uniform acc.2 i
  (iterSwap acc.1 i d.1.val, d.2)

/-- The `std::ranges::shuffle(cubes, gen)` of the standard library: for every position `i`
from `1` to `size - 1`, swap position `i` with a position drawn from `[0, i]`. -/
def shuffle {α : Type} (R : Rng) (l : List α) (gen : R.State) : List α × R.State :=
  (List.range' 1 (l.length - 1)).foldl (shuffleStep R) (l, gen)

/-! ## Integer extraction (`iss >> literal`) -/

/-- The whitespace the stream skips before a number (`std::isspace` in the C locale). -/
def isSpace (c : Char) : Bool :=
  c.toNat = 32 || (9 ≤ c.toNat && c.toNat ≤ 13)

/-- The decimal digits. -/
def isDigitChar (c : Char) : Bool :=
  48 ≤ c.toNat && c.toNat ≤ 57

/-- The value of a run of decimal digits. -/
def digitsValue (ds : List Char) : Nat :=
  ds.foldl (fun acc c => 10 * acc + (c.toNat - 48)) 0

/-- The sign the extraction reads, if any, and what follows it. -/
def splitSign : List Char → Bool × List Char
  | '-' :: r => (true, r)
  | '+' :: r => (false, r)
  | s => (false, s)

/-- One `iss >> literal` on the unread characters `s` of the stream: leading whitespace is
skipped, an optional sign and a run of decimal digits are read.  The result is `none` when
the extraction fails (no digit where a number is expected, end of input, or a value outside
the range of `int`), otherwise the value read and the characters left unread. -/
def extractInt (s : List Char) : Option (Int × List Char) :=
  let s1 := s.dropWhile isSpace
  let sg := splitSign s1
  let digits := sg.2.takeWhile isDigitChar
  let rest := sg.2.dropWhile isDigitChar
  if digits = [] then none
  else
    let v : Int := if sg.1 then -(digitsValue digits : Int) else (digitsValue digits : Int)
    if v < -2147483648 ∨ 2147483647 < v then none else some (v, rest)

/-- The loop `while (iss >> literal && literal != 0) push_back(literal)`, with one unit of
fuel per extraction. -/
def readLitsFuel : Nat → List Char → List Int
  | 0, _ => []
  | fuel + 1, s =>
    match extractInt s with
    | none => []
    | some (v, rest) => if v = 0 then [] else v :: readLitsFuel fuel rest

/-- The literals read from a stream holding `s`: every extraction consumes a character, so
`s.length` extractions exhaust it and one more fails. -/
def readLits (s : List Char) : List Int :=
  readLitsFuel (s.length + 1) s

/-! ## The functions of the source -/

/-- The first character of a line, if it has one (`line[0]` guarded by `line.empty()`). -/
def firstChar (line : String) : Option Char :=
  line.data.head?

/-- The source's `parse_cube_literals`: `none` is the `std::out_of_range` that `substr(1)`
throws on an empty line. -/
def parse_cube_literals (cube_line : String) : Option (List Int) :=
  if cube_line.data = [] then none else some (readLits (cube_line.data.drop 1))

/-- The `abs` of a 32-bit `int`: the magnitude, except that the most negative value has no
positive counterpart and is returned unchanged. -/
def abs32 (x : Int) : Int :=
  if x = -2147483648 then -2147483648 else (x.natAbs : Int)

/-- The `insert` of `std::set<int>`, the set being its elements in increasing order. -/
def setInsert (x : Int) : List Int → List Int
  | [] => [x]
  | y :: ys => if x < y then x :: y :: ys else if x = y then y :: ys else y :: setInsert x ys

/-- Insert the `abs` of every literal of `lits` into the set `vars`. -/
def insertAbs (vars : List Int) (lits : List Int) : List Int :=
  lits.foldl (fun vs lit => setInsert (abs32 lit) vs) vars

/-- The condition `line.empty() || line[0] == 'c' || line[0] == 'p'` of `count_variables`. -/
def skippedForVariables (line : String) : Bool :=
  line.data = [] || firstChar line = some 'c' || firstChar line = some 'p'

/-- The first loop of `count_variables`, over the lines of the file. -/
def contentVariables (content : List String) : List Int :=
  content.foldl (fun vars line =>
    if skippedForVariables line then vars else insertAbs vars (readLits line.data)) []

/-- The second loop of `count_variables`, over the cubes; `none` when a cube cannot be
parsed. -/
def cubeVariables : List Int → List String → Option (List Int)
  | vars, [] => some vars
  | vars, cube :: rest =>
    match parse_cube_literals cube with
    | none => none
    | some lits => cubeVariables (insertAbs vars lits) rest

/-- The source's `count_variables`: the largest element of the set (`*variables.rbegin()`),
or `0` when it is empty. -/
def count_variables (content cubes : List String) : Option Int :=
  match cubeVariables (contentVariables content) cubes with
  | none => none
  | some vars => some (vars.getLast?.getD 0)

/-- The condition under which `count_clauses` and the clause printing loop skip a line. -/
def skippedAsClause (line : String) : Bool :=
  line.data = [] || firstChar line = some 'c' || firstChar line = some 'p'
    || firstChar line = some 'a'

/-- The source's `count_clauses`.  The counter is a natural number: a file has fewer than
`2^31` lines. -/
def count_clauses (content : List String) : Nat :=
  content.foldl (fun clauses line => if skippedAsClause line then clauses else clauses + 1) 0

/-- The condition `line.empty() || line[0] != 'a'` under which the shuffle and sample modes
print a line of the file. -/
def printedAsContent (line : String) : Bool :=
  line.data = [] || firstChar line ≠ some 'a'

/-- The lines the read loop stores in `cubes`: the non-empty lines starting with `a`. -/
def readCubes (content : List String) : List String :=
  content.filter (fun line => !(line.data = []) && firstChar line = some 'a')

/-- The options left by the command line: `seed` is `some seed_value` when `seed_set`. -/
structure Options where
  seed : Option Nat := none
  sample_count : Int := -1
  as_cnf_index : Int := -1
  as_cnf_random : Bool := false

/-- How the process ends: `main` returns a code, or an exception escapes it. -/
inductive Status where
  | returned (code : Nat)
  | terminated
  deriving DecidableEq, Repr

/-- What a run leaves behind: the lines written to standard output, those written to
standard error, and how it ended. -/
structure Outcome where
  out : List String
  err : List String
  status : Status
  deriving DecidableEq, Repr

/-- The line `"p cnf " << nvars << " " << nclauses` of `main`.  The clause counter is a
natural number, as in `count_clauses`. -/
def cnfHeader (nvars : Int) (nclauses : Nat) : String :=
  "p cnf " ++ toString nvars ++ " " ++ toString nclauses

/-- The lines `literal << " 0"` that `main` prints for the literals of the cube. -/
def unitClauses (cube_literals : List Int) : List String :=
  cube_literals.map (fun literal => toString literal ++ " 0")

/-- The lines 160 to 180 of `main`: header, clause lines, unit clauses of the cube at
`cube_index`.  Nothing is printed before `count_variables` and `parse_cube_literals` have
returned. -/
def emitCnf (content cubes : List String) (cube_index : Nat) : Outcome :=
  match count_variables content cubes with
  | none => ⟨[], [], .terminated⟩
  | some nvars =>
    let nclauses := count_clauses content
    match parse_cube_literals (cubes.getD cube_index "") with
    | none => ⟨[], [], .terminated⟩
    | some cube_literals =>
      let nclauses := nclauses + cube_literals.length
      ⟨cnfHeader nvars nclauses
          :: (content.filter (fun line => !skippedAsClause line) ++ unitClauses cube_literals),
        [], .returned 0⟩

/-- The run that ends at line 145: no cube in the file. -/
def noCubes : Outcome :=
  ⟨[], ["No cubes found in file"], .returned 1⟩

/-- The run that ends at line 156: the index given to `--as-cnf` is out of range. -/
def indexOutOfRange (as_cnf_index : Int) : Outcome :=
  ⟨[], ["Cube index out of range: " ++ toString as_cnf_index], .returned 1⟩

/-- The engine `main` works with: constructed from the value `rd` of
`std::random_device`, and seeded again with `seed_value` when `seed_set`. -/
def initGen (R : Rng) (rd : Nat) (seed : Option Nat) : R.State :=
  match seed with
  | some seed_value => R.seed seed_value
  | none => R.seed rd

/-- The source's `main` after the command line has been read and the file opened:
`rd` is the value of `std::random_device`, `content` the lines of the file. -/
def main (R : Rng) (rd : Nat) (o : Options) (content : List String) : Outcome :=
  let gen : R.State := initGen R rd o.seed
  let cubes := readCubes content
  if 0 ≤ o.sample_count then
    let shuffled := (shuffle R cubes gen).1
    let actual_sample : Int := min o.sample_count (cubes.length : Int)
    ⟨content.filter printedAsContent ++ shuffled.take actual_sample.toNat, [], .returned 0⟩
  else if 0 ≤ o.as_cnf_index || o.as_cnf_random then
    if cubes = [] then noCubes
    else if o.as_cnf_random then
      emitCnf content cubes (R.uniform gen (cubes.length - 1)).1.val
    else
      let cube_index : Int := o.as_cnf_index - 1
      if cube_index < 0 ∨ (cubes.length : Int) ≤ cube_index then indexOutOfRange o.as_cnf_index
      else emitCnf content cubes cube_index.toNat
  else
    ⟨content.filter printedAsContent ++ (shuffle R cubes gen).1, [], .returned 0⟩

/-! ## The vocabulary of the specification -/

/-- A line of Cube kind: it has a first character and that character is `a`. -/
def isCubeLine (line : String) : Bool :=
  match line.data with
  | [] => false
  | c :: _ => c = 'a'

/-- The four kinds of line of section 4.1 of the specification. -/
inductive Kind where
  | comment
  | header
  | cube
  | clause
  deriving DecidableEq, Repr

/-- The line classifier of the specification: only the first character is inspected;
`c` is Comment, `p` is Header, `a` is Cube, anything else, the empty line included, is
Clause. -/
def classify (line : String) : Kind :=
  match line.data with
  | [] => .clause
  | c :: _ =>
    if c = 'c' then .comment
    else if c = 'p' then .header
    else if c = 'a' then .cube
    else .clause

/-- The literals the integer extraction reads from the Clause-kind lines of a file, in
order. -/
def clauseLiterals (content : List String) : List Int :=
  (content.filter (fun line => classify line = .clause)).flatMap (fun line => readLits line.data)

/-- The literals the integer extraction reads after the marker of each line of `cubes`,
in order. -/
def cubeLiterals (cubes : List String) : List Int :=
  cubes.flatMap (fun cube => readLits (cube.data.drop 1))

/-- The largest absolute value among `lits`, and `0` when there is none. -/
def maxAbs (lits : List Int) : Int :=
  lits.foldl (fun m x => max m (x.natAbs : Int)) 0

/-- An AsCNF run on `content` with options `o` resolves the cube at 0-based position `k`
of the file's cube lines: no sample is requested, the file has a cube, and either a random
cube is requested and `k` is the position drawn, or the 1-based index `k + 1` of a cube of
the file is supplied. -/
def Resolves (R : Rng) (rd : Nat) (o : Options) (content : List String) (k : Nat) : Prop :=
  o.sample_count < 0 ∧ content.filter isCubeLine ≠ [] ∧
    ((o.as_cnf_random = true ∧
        k = (R.uniform (initGen R rd o.seed) ((content.filter isCubeLine).length - 1)).1.val)
      ∨ (o.as_cnf_random = false ∧ o.as_cnf_index = (k : Int) + 1 ∧
          k < (content.filter isCubeLine).length))

/-- The value of a token: its run of digits read in base ten, negated after a `-`. -/
def tokenValue (t : List Char) : Int :=
  if (splitSign t).1 then -(digitsValue (splitSign t).2 : Int)
  else (digitsValue (splitSign t).2 : Int)

/-- An integer token: an optional sign followed by at least one decimal digit and nothing
else, whose value fits an `int`. -/
def isIntToken (t : List Char) : Bool :=
  !(splitSign t).2.isEmpty && (splitSign t).2.all isDigitChar
    && decide (-2147483648 ≤ tokenValue t) && decide (tokenValue t ≤ 2147483647)

/-- A separator: a non-empty run of whitespace. -/
def isSeparator (sep : List Char) : Bool :=
  !sep.isEmpty && sep.all isSpace

/-- The text of a sequence of tokens, each written after its separator. -/
def renderTokens (ts : List (List Char × List Char)) : List Char :=
  (ts.map (fun p => p.1 ++ p.2)).flatten

/-- A cell of a token sequence, a separator followed by a token, is well formed. -/
def wellFormedCell (p : List Char × List Char) : Bool :=
  isSeparator p.1 && isIntToken p.2

/-- A reading of a text as a run of numbers: the cells, each a separator followed by a
token, that are read one after the other, and the text at which reading stops. -/
structure Reading where
  cells : List (List Char × List Char)
  stop : List Char

/-- The cells of a reading are well formed: every token is an integer token, every
separator is whitespace, and only the first separator may be empty. -/
def wellFormedCells : List (List Char × List Char) → Bool
  | [] => true
  | p :: ps => p.1.all isSpace && isIntToken p.2 && ps.all wellFormedCell

/-- A text at which reading stops: after its leading whitespace it is empty or starts with a
character that is neither a digit nor a sign. -/
def isStop (s : List Char) : Bool :=
  match s.dropWhile isSpace with
  | [] => true
  | c :: _ => !isDigitChar c && c != '-' && c != '+'

/-- The text a reading describes. -/
def Reading.text (r : Reading) : List Char :=
  renderTokens r.cells ++ r.stop

/-- The reading is well formed. -/
def Reading.ok (r : Reading) : Bool :=
  wellFormedCells r.cells && isStop r.stop

/-- The literals of a reading: the values of its tokens before the first token of value 0. -/
def Reading.values (r : Reading) : List Int :=
  (r.cells.map (fun p => tokenValue p.2)).takeWhile (fun v => v ≠ 0)

/-- The literals of a line as the specification counts them: the values of the
whitespace-separated tokens before the first token that is no integer and before the first
token of value 0. -/
def claimedLiterals (tokens : List (List Char)) : List Int :=
  ((tokens.takeWhile isIntToken).map tokenValue).takeWhile (fun v => v ≠ 0)

/-- The literals of the Clause-kind lines of a file and of a list of cubes, each line and
each cube (after its marker) read as `shape` describes. -/
def shapedLiterals (shape : String → Reading) (content cubes : List String) : List Int :=
  (content.filter (fun line => classify line = .clause)).flatMap (fun line => (shape line).values)
    ++ cubes.flatMap (fun cube => (shape cube).values)

/-- The readings of the lines and cubes of a small file, used to run the theorems on a
concrete input. -/
def sampleShape (line : String) : Reading :=
  if line = "1 -4 0 9" then
    ⟨[([], ['1']), ([' '], ['-', '4']), ([' '], ['0']), ([' '], ['9'])], []⟩
  else if line = "3 12abc 0" then ⟨[([], ['3']), ([' '], ['1', '2'])], ['a', 'b', 'c', ' ', '0']⟩
  else if line = "a -7 2 0" then ⟨[([' '], ['-', '7']), ([' '], ['2']), ([' '], ['0'])], []⟩
  else if line = "a 3 0" then ⟨[([' '], ['3']), ([' '], ['0'])], []⟩
  else ⟨[], []⟩

/-! ## The shuffle is a permutation -/

theorem iterSwap_perm {α : Type} (l : List α) (i j : Nat) : (iterSwap l i j).Perm l := by
  classical
  unfold iterSwap
  split
  · rename_i x y hx hy
    obtain ⟨hi, hxi⟩ := List.getElem?_eq_some_iff.mp hx
    obtain ⟨hj, hyj⟩ := List.getElem?_eq_some_iff.mp hy
    rw [List.perm_iff_count]
    intro b
    have hj2 : j < (l.set i y).length := by simpa using hj
    have hget : (l.set i y)[j] = y := by
      rw [List.getElem_set]
      split
      · rfl
      · exact hyj
    rw [List.count_set x b (l.set i y) j hj2, List.count_set y b l i hi, hget, hxi]
    have hpos : (if (x == b) = true then 1 else 0) ≤ List.count b l := by
      split
      · rename_i hxb
        have hxb2 : x = b := by simpa using hxb
        subst hxb2
        exact List.count_pos_iff.mpr (hxi ▸ List.getElem_mem hi)
      · exact Nat.zero_le _
    omega
  · exact List.Perm.refl l

theorem shuffle_fold_perm {α : Type} (R : Rng) (idx : List Nat) (acc : List α × R.State) :
    (idx.foldl (shuffleStep R) acc).1.Perm acc.1 := by
  induction idx generalizing acc with
  | nil => exact List.Perm.refl _
  | cons i rest ih =>
    rw [List.foldl_cons]
    exact (ih _).trans (iterSwap_perm _ _ _)

theorem shuffle_perm {α : Type} (R : Rng) (l : List α) (gen : R.State) :
    (shuffle R l gen).1.Perm l :=
  shuffle_fold_perm R _ (l, gen)

theorem printedAsContent_eq : printedAsContent = fun line => !isCubeLine line := by
  funext line
  unfold printedAsContent isCubeLine firstChar
  cases h : line.data with
  | nil => simp
  | cons c cs => simp

theorem readCubes_eq (content : List String) : readCubes content = content.filter isCubeLine := by
  unfold readCubes
  congr 1
  funext line
  unfold isCubeLine firstChar
  cases h : line.data with
  | nil => simp
  | cons c cs => simp

theorem main_sample (R : Rng) (rd : Nat) (o : Options) (n : Nat) (content : List String) :
    main R rd { o with sample_count := (n : Int) } content
      = ⟨content.filter (fun line => !isCubeLine line)
          ++ (shuffle R (content.filter isCubeLine) (initGen R rd o.seed)).1.take n,
         [], .returned 0⟩ := by
  have hlen : ((shuffle R (content.filter isCubeLine) (initGen R rd o.seed)).1).length
      = (content.filter isCubeLine).length := (shuffle_perm R _ _).length_eq
  have htake : ∀ l : List String, ∀ m : Nat, l.length = m →
      l.take (min (n : Int) (m : Int)).toNat = l.take n := by
    intro l m hl
    rcases Nat.le_total n m with h | h
    · rw [min_eq_left (by exact_mod_cast h)]; rfl
    · rw [min_eq_right (by exact_mod_cast h)]
      rw [Int.toNat_ofNat, List.take_of_length_le (by omega), List.take_of_length_le (by omega)]
  simp only [main, readCubes_eq, printedAsContent_eq, Int.natCast_nonneg, if_true]
  rw [htake _ _ hlen]

theorem main_shuffle (R : Rng) (rd : Nat) (seed : Option Nat) (content : List String) :
    main R rd { seed := seed } content
      = ⟨content.filter (fun line => !isCubeLine line)
          ++ (shuffle R (content.filter isCubeLine) (initGen R rd seed)).1,
         [], .returned 0⟩ := by
  simp [main, readCubes_eq, printedAsContent_eq]

/-- The two filters of an output made of non-cube lines followed by cube lines. -/
theorem filter_layout (content sel : List String) (hsel : ∀ l ∈ sel, isCubeLine l = true) :
    (content.filter (fun line => !isCubeLine line) ++ sel).filter (fun line => !isCubeLine line)
        = content.filter (fun line => !isCubeLine line) ∧
    (content.filter (fun line => !isCubeLine line) ++ sel).filter isCubeLine = sel := by
  constructor
  · rw [List.filter_append, List.filter_filter]
    have : sel.filter (fun line => !isCubeLine line) = [] := by
      rw [List.filter_eq_nil_iff]; intro a ha; simp [hsel a ha]
    rw [this, List.append_nil]; simp
  · rw [List.filter_append, List.filter_filter]
    have h1 : content.filter (fun a => isCubeLine a && !isCubeLine a) = [] := by
      rw [List.filter_eq_nil_iff]; intro a _; simp
    rw [h1, List.nil_append, List.filter_eq_self]; exact hsel

theorem shuffle_isCube (R : Rng) (content : List String) (gen : R.State) :
    ∀ l ∈ (shuffle R (content.filter isCubeLine) gen).1, isCubeLine l = true := by
  intro l hl
  have := (shuffle_perm R (content.filter isCubeLine) gen).subset hl
  exact (List.mem_filter.mp this).2

/-- C1: in Sample(n) mode (for every count `n`, whatever the other options) and in Shuffle
mode (no flags), for every file, every seed and every engine, the output is the file's
non-cube lines, verbatim and in their original order, followed by selected lines that are all
cube lines: the prefix of length `n` of the shuffled cubes in Sample mode, all the shuffled
cubes in Shuffle mode.  So the non-cube lines of the output are those of the input. -/
theorem shuffle_sample_keep_noncube_lines (R : Rng) (rd : Nat) (o : Options) (n : Nat)
    (content : List String) :
    ((main R rd { o with sample_count := (n : Int) } content).out
        = content.filter (fun line => !isCubeLine line)
          ++ (shuffle R (content.filter isCubeLine) (initGen R rd o.seed)).1.take n
      ∧ (∀ l ∈ (shuffle R (content.filter isCubeLine) (initGen R rd o.seed)).1.take n,
          isCubeLine l = true)
      ∧ (main R rd { o with sample_count := (n : Int) } content).out.filter
          (fun line => !isCubeLine line) = content.filter (fun line => !isCubeLine line))
    ∧ ((main R rd { seed := o.seed } content).out
        = content.filter (fun line => !isCubeLine line)
          ++ (shuffle R (content.filter isCubeLine) (initGen R rd o.seed)).1
      ∧ (∀ l ∈ (shuffle R (content.filter isCubeLine) (initGen R rd o.seed)).1,
          isCubeLine l = true)
      ∧ (main R rd { seed := o.seed } content).out.filter
          (fun line => !isCubeLine line) = content.filter (fun line => !isCubeLine line)) := by
  have hall := shuffle_isCube R content (initGen R rd o.seed)
  have htake : ∀ l ∈ (shuffle R (content.filter isCubeLine) (initGen R rd o.seed)).1.take n,
      isCubeLine l = true := fun l hl => hall l (List.mem_of_mem_take hl)
  rw [main_sample, main_shuffle]
  exact ⟨⟨rfl, htake, (filter_layout content _ htake).1⟩,
    ⟨rfl, hall, (filter_layout content _ hall).1⟩⟩

/-- C2: for every file and every `n`, Sample(n) succeeds, its output has exactly
`min n cube_count` lines beginning with `a`, and those lines are, as a multiset, contained
in the cube lines of the input (nothing emitted twice, nothing fabricated); Sample(0)
succeeds and emits no cube line. -/
theorem sample_emits_min_cubes (R : Rng) (rd : Nat) (o : Options) (n : Nat)
    (content : List String) :
    (main R rd { o with sample_count := (n : Int) } content).status = .returned 0
    ∧ ((main R rd { o with sample_count := (n : Int) } content).out.filter isCubeLine).length
        = min n (content.filter isCubeLine).length
    ∧ ((main R rd { o with sample_count := (n : Int) } content).out.filter isCubeLine).Subperm
        (content.filter isCubeLine)
    ∧ (main R rd { o with sample_count := 0 } content).status = .returned 0
    ∧ (main R rd { o with sample_count := 0 } content).out.filter isCubeLine = [] := by
  have hall := shuffle_isCube R content (initGen R rd o.seed)
  have htake : ∀ m, ∀ l ∈ (shuffle R (content.filter isCubeLine) (initGen R rd o.seed)).1.take m,
      isCubeLine l = true := fun m l hl => hall l (List.mem_of_mem_take hl)
  have h0 := main_sample R rd o 0 content
  rw [Nat.cast_zero] at h0
  rw [main_sample, h0]
  simp only [(filter_layout content _ (htake n)).2, (filter_layout content _ (htake 0)).2]
  refine ⟨trivial, ?_, ?_, trivial, ?_⟩
  · rw [List.length_take, (shuffle_perm R _ _).length_eq]
  · exact (List.take_sublist n _).subperm.trans (shuffle_perm R _ _).subperm
  · rfl

/-- C3: in Shuffle mode, for every file, every seed and every engine, the cube lines of the
output are a permutation of the cube lines of the input, the whole output is a permutation of
the input lines, and it has as many lines as the input. -/
theorem shuffle_retains_all_cubes (R : Rng) (rd : Nat) (seed : Option Nat)
    (content : List String) :
    ((main R rd { seed := seed } content).out.filter isCubeLine).Perm
        (content.filter isCubeLine)
    ∧ (main R rd { seed := seed } content).out.Perm content
    ∧ (main R rd { seed := seed } content).out.length = content.length := by
  have hall := shuffle_isCube R content (initGen R rd seed)
  have hperm : (content.filter (fun line => !isCubeLine line)
      ++ (shuffle R (content.filter isCubeLine) (initGen R rd seed)).1).Perm content := by
    refine ((shuffle_perm R _ _).append_left _).trans ?_
    exact List.perm_append_comm.trans (List.filter_append_perm isCubeLine content)
  rw [main_shuffle]
  simp only [(filter_layout content _ hall).2]
  exact ⟨shuffle_perm R _ _, hperm, hperm.length_eq⟩

/-! ## The set of variables -/

theorem mem_setInsert (x y : Int) (s : List Int) : y ∈ setInsert x s ↔ y = x ∨ y ∈ s := by
  induction s with
  | nil => simp [setInsert]
  | cons z zs ih =>
    unfold setInsert
    split
    · simp
    · split
      · rename_i hxz; subst hxz; simp
      · simp only [List.mem_cons, ih]; tauto

theorem sorted_setInsert (x : Int) (s : List Int) (hs : s.Sorted (· < ·)) :
    (setInsert x s).Sorted (· < ·) := by
  induction s with
  | nil => simp [setInsert]
  | cons z zs ih =>
    have hz := List.sorted_cons.mp hs
    unfold setInsert
    split
    · rename_i hxz
      refine List.sorted_cons.mpr ⟨?_, hs⟩
      intro b hb
      rcases List.mem_cons.mp hb with h | h
      · exact h ▸ hxz
      · exact lt_trans hxz (hz.1 b h)
    · split
      · exact hs
      · rename_i h1 h2
        refine List.sorted_cons.mpr ⟨?_, ih hz.2⟩
        intro b hb
        rcases (mem_setInsert x b zs).mp hb with h | h
        · subst h; omega
        · exact hz.1 b h

theorem mem_insertAbs (lits : List Int) (vars : List Int) (y : Int) :
    y ∈ insertAbs vars lits ↔ y ∈ vars ∨ ∃ l ∈ lits, abs32 l = y := by
  induction lits generalizing vars with
  | nil => simp [insertAbs]
  | cons l ls ih =>
    have := ih (setInsert (abs32 l) vars)
    unfold insertAbs at this ⊢
    rw [List.foldl_cons, this, mem_setInsert]
    simp only [List.mem_cons, exists_eq_or_imp]
    constructor
    · rintro ((h | h) | h)
      · exact Or.inr (Or.inl h.symm)
      · exact Or.inl h
      · exact Or.inr (Or.inr h)
    · rintro (h | h | h)
      · exact Or.inl (Or.inr h)
      · exact Or.inl (Or.inl h.symm)
      · exact Or.inr h

theorem sorted_insertAbs (lits : List Int) (vars : List Int) (hs : vars.Sorted (· < ·)) :
    (insertAbs vars lits).Sorted (· < ·) := by
  induction lits generalizing vars with
  | nil => simpa [insertAbs] using hs
  | cons l ls ih =>
    have := ih (setInsert (abs32 l) vars) (sorted_setInsert _ _ hs)
    unfold insertAbs at this ⊢
    rw [List.foldl_cons]
    exact this

theorem insertAbs_append (vars a b : List Int) :
    insertAbs vars (a ++ b) = insertAbs (insertAbs vars a) b := by
  unfold insertAbs
  rw [List.foldl_append]

/-- The last element of an increasing list is its greatest. -/
theorem le_getLast_of_sorted (s : List Int) (hs : s.Sorted (· < ·)) (d : Int) :
    ∀ y ∈ s, y ≤ s.getLast?.getD d := by
  induction s generalizing d with
  | nil => simp
  | cons z zs ih =>
    have hz := List.sorted_cons.mp hs
    intro y hy
    cases zs with
    | nil =>
      simp at hy
      simp [hy]
    | cons w ws =>
      have hlast : (z :: w :: ws).getLast?.getD d = (w :: ws).getLast?.getD d := by
        simp [List.getLast?_cons_cons]
      rw [hlast]
      rcases List.mem_cons.mp hy with h | h
      · subst h
        exact le_trans (le_of_lt (hz.1 w (List.mem_cons_self _ _))) (ih hz.2 d w (List.mem_cons_self _ _))
      · exact ih hz.2 d y h

theorem getLast_mem_of_ne_nil (s : List Int) (hs : s ≠ []) (d : Int) :
    s.getLast?.getD d ∈ s := by
  rw [List.getLast?_eq_getLast _ hs]
  exact List.getLast_mem hs

/-! ## The largest absolute value -/

theorem maxAbs_fold (lits : List Int) (m : Int) (hm : 0 ≤ m) :
    lits.foldl (fun m x => max m (x.natAbs : Int)) m = max m (maxAbs lits) ∧ 0 ≤ maxAbs lits := by
  induction lits generalizing m with
  | nil => simp [maxAbs, hm]
  | cons x xs ih =>
    have h1 := ih (max m (x.natAbs : Int)) (le_max_of_le_left hm)
    have h2 := ih (max 0 (x.natAbs : Int)) (le_max_left _ _)
    unfold maxAbs at h1 h2 ⊢
    rw [List.foldl_cons, List.foldl_cons, h1.1, h2.1]
    have := h1.2
    constructor
    · rw [max_assoc, max_eq_right (Int.natCast_nonneg x.natAbs)]
    · exact le_max_of_le_right this

theorem maxAbs_cons (x : Int) (xs : List Int) :
    maxAbs (x :: xs) = max (x.natAbs : Int) (maxAbs xs) := by
  have h := (maxAbs_fold xs (max 0 (x.natAbs : Int)) (le_max_left _ _)).1
  unfold maxAbs at h ⊢
  rw [List.foldl_cons, h, max_eq_right (Int.natCast_nonneg _)]

theorem le_maxAbs (lits : List Int) : ∀ x ∈ lits, (x.natAbs : Int) ≤ maxAbs lits := by
  induction lits with
  | nil => simp
  | cons y ys ih =>
    intro x hx
    rw [maxAbs_cons]
    rcases List.mem_cons.mp hx with h | h
    · subst h; exact le_max_left _ _
    · exact le_max_of_le_right (ih x h)

theorem maxAbs_attained (lits : List Int) (h : lits ≠ []) :
    ∃ x ∈ lits, maxAbs lits = (x.natAbs : Int) := by
  induction lits with
  | nil => exact absurd rfl h
  | cons y ys ih =>
    rw [maxAbs_cons]
    by_cases hys : ys = []
    · subst hys
      refine ⟨y, List.mem_cons_self _ _, ?_⟩
      simp [maxAbs]
    · obtain ⟨x, hx, hxe⟩ := ih hys
      rcases le_total (y.natAbs : Int) (maxAbs ys) with hle | hle
      · exact ⟨x, List.mem_cons_of_mem _ hx, by rw [max_eq_right hle, hxe]⟩
      · exact ⟨y, List.mem_cons_self _ _, by rw [max_eq_left hle]⟩

theorem abs32_eq (x : Int) (h : x ≠ -2147483648) : abs32 x = (x.natAbs : Int) := by
  simp [abs32, h]

/-- The largest element of the set built from `lits` is their largest absolute value. -/
theorem getLast_insertAbs (lits : List Int) (hmin : ∀ x ∈ lits, x ≠ -2147483648) :
    (insertAbs [] lits).getLast?.getD 0 = maxAbs lits := by
  by_cases hl : lits = []
  · subst hl; simp [insertAbs, maxAbs]
  · have hsorted := sorted_insertAbs lits [] (List.sorted_nil)
    obtain ⟨x0, hx0, hx0e⟩ := maxAbs_attained lits hl
    have hx0mem : (x0.natAbs : Int) ∈ insertAbs [] lits :=
      (mem_insertAbs lits [] _).mpr (Or.inr ⟨x0, hx0, abs32_eq x0 (hmin x0 hx0)⟩)
    have hne : insertAbs [] lits ≠ [] := List.ne_nil_of_mem hx0mem
    have hlast := getLast_mem_of_ne_nil _ hne 0
    rcases (mem_insertAbs lits [] _).mp hlast with h | ⟨l, hlm, hle⟩
    · simp at h
    · apply le_antisymm
      · rw [← hle, abs32_eq l (hmin l hlm)]
        exact le_maxAbs lits l hlm
      · rw [hx0e]
        exact le_getLast_of_sorted _ hsorted 0 _ hx0mem

/-! ## What `count_variables` and `count_clauses` compute -/

theorem readLits_nil : readLits [] = [] := by
  simp [readLits, readLitsFuel, extractInt, splitSign]

theorem readLits_marker (r : List Char) : readLits ('a' :: r) = [] := by
  have h1 : isSpace 'a' = false := by decide
  have h2 : isDigitChar 'a' = false := by decide
  simp [readLits, readLitsFuel, extractInt, splitSign, List.dropWhile, List.takeWhile, h1, h2]

/-- The literals the first loop of `count_variables` reads. -/
theorem contentVariables_eq (content : List String) (vars : List Int) :
    content.foldl (fun vars line =>
      if skippedForVariables line then vars else insertAbs vars (readLits line.data)) vars
      = insertAbs vars (clauseLiterals content) := by
  induction content generalizing vars with
  | nil => simp [clauseLiterals, insertAbs]
  | cons line rest ih =>
    rw [List.foldl_cons, ih]
    have hcl : clauseLiterals (line :: rest)
        = (if skippedForVariables line then [] else readLits line.data) ++ clauseLiterals rest := by
      unfold clauseLiterals skippedForVariables classify firstChar
      cases hd : line.data with
      | nil => simp [List.filter_cons, hd, readLits_nil]
      | cons c cs =>
        by_cases hc : c = 'c'
        · subst hc; simp [List.filter_cons, hd]
        · by_cases hp : c = 'p'
          · subst hp; simp [List.filter_cons, hd]
          · by_cases ha : c = 'a'
            · subst ha; simp [List.filter_cons, hd, readLits_marker]
            · simp [List.filter_cons, hd, hc, hp, ha]
    rw [hcl, insertAbs_append]
    split <;> simp [insertAbs]

theorem cubeVariables_eq (cubes : List String) (vars : List Int)
    (hc : ∀ cube ∈ cubes, isCubeLine cube = true) :
    cubeVariables vars cubes = some (insertAbs vars (cubeLiterals cubes)) := by
  induction cubes generalizing vars with
  | nil => simp [cubeVariables, cubeLiterals, insertAbs]
  | cons cube rest ih =>
    have hcube := hc cube (List.mem_cons_self _ _)
    have hne : cube.data ≠ [] := by
      intro h; simp [isCubeLine, h] at hcube
    have hcl : cubeLiterals (cube :: rest) = readLits (cube.data.drop 1) ++ cubeLiterals rest := by
      simp [cubeLiterals]
    simp only [cubeVariables, parse_cube_literals, hne, if_false]
    rw [ih _ (fun c h => hc c (List.mem_cons_of_mem _ h)), hcl, insertAbs_append]

theorem count_variables_eq (content : List String) :
    count_variables content (content.filter isCubeLine)
      = some ((insertAbs [] (clauseLiterals content
          ++ cubeLiterals (content.filter isCubeLine))).getLast?.getD 0) := by
  unfold count_variables contentVariables
  rw [contentVariables_eq, cubeVariables_eq _ _ (fun c h => (List.mem_filter.mp h).2),
    insertAbs_append]

theorem not_skippedAsClause (line : String) :
    (!skippedAsClause line) = (decide (classify line = .clause) && !line.data.isEmpty) := by
  unfold skippedAsClause classify firstChar
  cases hd : line.data with
  | nil => simp
  | cons c cs =>
    by_cases hc : c = 'c'
    · subst hc; simp
    · by_cases hp : c = 'p'
      · subst hp; simp
      · by_cases ha : c = 'a'
        · subst ha; simp
        · simp [hc, hp, ha]

theorem count_clauses_fold (content : List String) (n : Nat) :
    content.foldl (fun clauses line => if skippedAsClause line then clauses else clauses + 1) n
      = n + (content.filter (fun line => !skippedAsClause line)).length := by
  induction content generalizing n with
  | nil => simp
  | cons line rest ih =>
    rw [List.foldl_cons, ih, List.filter_cons]
    cases h : skippedAsClause line
    · simp; omega
    · simp

theorem count_clauses_eq (content : List String) :
    count_clauses content = (content.filter (fun line => !skippedAsClause line)).length := by
  unfold count_clauses
  rw [count_clauses_fold, Nat.zero_add]

/-! ## The CNF export -/

theorem main_as_cnf (R : Rng) (rd : Nat) (o : Options) (content : List String) (k : Nat)
    (h : Resolves R rd o content k) :
    main R rd o content = emitCnf content (content.filter isCubeLine) k := by
  obtain ⟨hs, hne, hk⟩ := h
  have hs2 : ¬ (0 ≤ o.sample_count) := not_le.mpr hs
  unfold main
  rw [readCubes_eq]
  rcases hk with ⟨hr, hk⟩ | ⟨hr, hi, hk⟩
  · simp only [hs2, if_false, hr, Bool.or_true, if_true, hne, ← hk]
  · have h1 : (0 : Int) ≤ o.as_cnf_index := by omega
    have h2 : ¬ (o.as_cnf_index - 1 < 0
        ∨ ((content.filter isCubeLine).length : Int) ≤ o.as_cnf_index - 1) := by
      omega
    have h3 : (o.as_cnf_index - 1).toNat = k := by omega
    simp only [hs2, if_false, hr, h1, decide_True, Bool.or_false, if_true, hne, h2, h3]
    simp

theorem getD_of_getElem? {cubes : List String} {k : Nat} {cube : String}
    (h : cubes[k]? = some cube) : cubes.getD k "" = cube := by
  simp [List.getD, h]

theorem emitCnf_eq (content : List String) (k : Nat) (cube : String)
    (hcube : (content.filter isCubeLine)[k]? = some cube) :
    parse_cube_literals cube = some (readLits (cube.data.drop 1)) ∧
    emitCnf content (content.filter isCubeLine) k
      = ⟨cnfHeader ((insertAbs [] (clauseLiterals content
            ++ cubeLiterals (content.filter isCubeLine))).getLast?.getD 0)
          (count_clauses content + (readLits (cube.data.drop 1)).length)
          :: (content.filter (fun line => !skippedAsClause line)
              ++ unitClauses (readLits (cube.data.drop 1))),
        [], .returned 0⟩ := by
  have hmem : cube ∈ content.filter isCubeLine := List.getElem?_mem hcube
  have hne : cube.data ≠ [] := by
    intro h
    have := (List.mem_filter.mp hmem).2
    simp [isCubeLine, h] at this
  have hp : parse_cube_literals cube = some (readLits (cube.data.drop 1)) := by
    simp [parse_cube_literals, hne]
  refine ⟨hp, ?_⟩
  unfold emitCnf
  rw [count_variables_eq, getD_of_getElem? hcube]
  simp only [hp]

theorem resolves_lt (R : Rng) (rd : Nat) (o : Options) (content : List String) (k : Nat)
    (h : Resolves R rd o content k) : k < (content.filter isCubeLine).length := by
  obtain ⟨_, hne, hk⟩ := h
  have hpos : 0 < (content.filter isCubeLine).length := List.length_pos.mpr hne
  rcases hk with ⟨_, hk⟩ | ⟨_, _, hk⟩
  · rw [hk]
    have := (R.uniform (initGen R rd o.seed) ((content.filter isCubeLine).length - 1)).1.isLt
    omega
  · exact hk

/-! ## The fuel of the extraction loop is enough -/

theorem splitSign_length (s : List Char) : (splitSign s).2.length ≤ s.length := by
  unfold splitSign
  split <;> simp

/-- A successful extraction consumes at least one character. -/
theorem extractInt_length {s : List Char} {v : Int} {rest : List Char}
    (h : extractInt s = some (v, rest)) : rest.length < s.length := by
  have h1 := splitSign_length (s.dropWhile isSpace)
  have h2 : (s.dropWhile isSpace).length ≤ s.length :=
    (List.dropWhile_sublist isSpace).length_le
  have h3 := congrArg List.length
    (List.takeWhile_append_dropWhile isDigitChar (splitSign (s.dropWhile isSpace)).2)
  rw [List.length_append] at h3
  unfold extractInt at h
  simp only at h
  split_ifs at h with hd hv hr hr
  all_goals
    have h4 : 0 < ((splitSign (s.dropWhile isSpace)).2.takeWhile isDigitChar).length :=
      List.length_pos.mpr hd
    have hrest := (congrArg Prod.snd (Option.some.inj h)).symm
    simp only at hrest
    rw [hrest]
    omega

theorem readLitsFuel_congr (n m : Nat) (s : List Char) (hn : s.length < n) (hm : s.length < m) :
    readLitsFuel n s = readLitsFuel m s := by
  induction n generalizing m s with
  | zero => omega
  | succ n ih =>
    cases m with
    | zero => omega
    | succ m =>
      unfold readLitsFuel
      cases he : extractInt s with
      | none => rfl
      | some p =>
        obtain ⟨v, rest⟩ := p
        have hl := extractInt_length he
        simp only
        split
        · rfl
        · rw [ih m rest (by omega) (by omega)]

/-- With any fuel above the length of the input the loop returns the same literals: the fuel
that `readLits` supplies never runs out. -/
theorem readLitsFuel_eq_readLits (n : Nat) (s : List Char) (hn : s.length < n) :
    readLitsFuel n s = readLits s :=
  readLitsFuel_congr n (s.length + 1) s hn (Nat.lt_succ_self _)

/-- The loop of the source, unfolded once: the literals are those of one extraction followed
by those read from the rest of the stream. -/
theorem readLits_unfold (s : List Char) :
    readLits s = match extractInt s with
      | none => []
      | some (v, rest) => if v = 0 then [] else v :: readLits rest := by
  unfold readLits
  rw [readLitsFuel]
  cases he : extractInt s with
  | none => rfl
  | some p =>
    obtain ⟨v, rest⟩ := p
    have hl := extractInt_length he
    simp only
    split
    · rfl
    · rw [readLitsFuel_congr s.length (rest.length + 1) rest hl (Nat.lt_succ_self _)]

theorem cnfHeader_data (v : Int) (c : Nat) :
    (cnfHeader v c).data = "p cnf ".data ++ (toString v).data ++ " ".data ++ (toString c).data := by
  simp [cnfHeader]

/-! ## The claims -/

/-- C4, as stated, fails: on the file `1 0`, `a 1 0`, `a 5 0` with `--as-cnf 1` the header
declares 5 variables, while the largest absolute literal over the clause lines and the
resolved cube `a 1 0` is 1; the literal of the other cube is counted. -/
theorem nvars_counts_unresolved_cubes :
    (main lcg 0 { as_cnf_index := 1 } ["1 0", "a 1 0", "a 5 0"]).out
        = ["p cnf 5 2", "1 0", "1 0"]
    ∧ maxAbs (clauseLiterals ["1 0", "a 1 0", "a 5 0"] ++ cubeLiterals ["a 1 0"]) = 1
    ∧ ∀ nclauses : Nat, (main lcg 0 { as_cnf_index := 1 } ["1 0", "a 1 0", "a 5 0"]).out.head?
        ≠ some (cnfHeader (maxAbs (clauseLiterals ["1 0", "a 1 0", "a 5 0"]
            ++ cubeLiterals ["a 1 0"])) nclauses) := by
  have hout : (main lcg 0 { as_cnf_index := 1 } ["1 0", "a 1 0", "a 5 0"]).out
      = ["p cnf 5 2", "1 0", "1 0"] := by decide
  have hmax : maxAbs (clauseLiterals ["1 0", "a 1 0", "a 5 0"] ++ cubeLiterals ["a 1 0"]) = 1 := by
    decide
  refine ⟨hout, hmax, ?_⟩
  intro nclauses h
  rw [hout, hmax] at h
  have h2 := congrArg String.data (Option.some.inj h)
  rw [cnfHeader_data] at h2
  change ['p', ' ', 'c', 'n', 'f', ' ', '5', ' ', '2']
    = ['p', ' ', 'c', 'n', 'f', ' '] ++ ['1'] ++ [' '] ++ (toString nclauses).data at h2
  simp at h2

/-- C4, amended: in AsCNF mode, for every file with a resolvable cube in which no literal is
`-2^31`, the variable count declared in the synthesized header is the largest absolute
literal over all clause lines and the literals of ALL cube lines of the file, resolved or
not. -/
theorem as_cnf_declares_max_over_all_cubes (R : Rng) (rd : Nat) (o : Options)
    (content : List String) (k : Nat) (h : Resolves R rd o content k)
    (hmin : ∀ x ∈ clauseLiterals content ++ cubeLiterals (content.filter isCubeLine),
      x ≠ -2147483648) :
    ∃ nclauses : Nat, (main R rd o content).out.head?
      = some (cnfHeader (maxAbs (clauseLiterals content
          ++ cubeLiterals (content.filter isCubeLine))) nclauses) := by
  have hk := resolves_lt R rd o content k h
  have hcube : (content.filter isCubeLine)[k]? = some (content.filter isCubeLine)[k] :=
    List.getElem?_eq_getElem hk
  rw [main_as_cnf R rd o content k h, (emitCnf_eq content k _ hcube).2, getLast_insertAbs _ hmin]
  exact ⟨_, rfl⟩

/-- A concrete run on which the hypotheses above hold, with the conclusion they give. -/
theorem as_cnf_declares_max_over_all_cubes_witness :
    Resolves lcg 0 { as_cnf_index := 1 } ["1 0", "a 1 0", "a 5 0"] 0
    ∧ (∀ x ∈ clauseLiterals ["1 0", "a 1 0", "a 5 0"]
          ++ cubeLiterals (["1 0", "a 1 0", "a 5 0"].filter isCubeLine), x ≠ -2147483648)
    ∧ ∃ nclauses : Nat, (main lcg 0 { as_cnf_index := 1 } ["1 0", "a 1 0", "a 5 0"]).out.head?
      = some (cnfHeader (maxAbs (clauseLiterals ["1 0", "a 1 0", "a 5 0"]
          ++ cubeLiterals (["1 0", "a 1 0", "a 5 0"].filter isCubeLine))) nclauses) :=
  ⟨by unfold Resolves; decide, by decide,
    as_cnf_declares_max_over_all_cubes lcg 0 { as_cnf_index := 1 } ["1 0", "a 1 0", "a 5 0"] 0
      (by unfold Resolves; decide) (by decide)⟩

/-- C6, as stated, fails: the file `1 2 0`, (blank), `-1 0` has three lines that are neither
Comment, Header nor Cube kind, and `count_clauses` returns 2: the blank line is skipped. -/
theorem count_clauses_skips_blank_line :
    count_clauses ["1 2 0", "", "-1 0"] = 2
    ∧ (["1 2 0", "", "-1 0"].filter (fun line => classify line = .clause)).length = 3
    ∧ count_clauses ["1 2 0", "", "-1 0"]
        ≠ (["1 2 0", "", "-1 0"].filter (fun line => classify line = .clause)).length := by
  decide

/-- C6, amended: for every line list, `count_clauses` returns the number of non-empty lines
whose first character is none of `c`, `p`, `a`: each such line counts once whatever its
content, and empty lines are not counted. -/
theorem count_clauses_counts_nonempty_clause_lines (content : List String) :
    count_clauses content
      = (content.filter
          (fun line => classify line = .clause && !line.data.isEmpty)).length := by
  rw [count_clauses_eq]
  congr 2
  funext line
  exact not_skippedAsClause line

/-- C7, as stated, fails: on the file (blank), `1 0`, `a 1 0` with `--as-cnf 1` the output is
`p cnf 1 2`, `1 0`, `1 0`: the blank line, which is of Clause kind, is not emitted, so the
output is not a header followed by the two Clause-kind lines and the unit clause. -/
theorem as_cnf_drops_blank_line :
    (main lcg 0 { as_cnf_index := 1 } ["", "1 0", "a 1 0"]).out = ["p cnf 1 2", "1 0", "1 0"]
    ∧ ["", "1 0", "a 1 0"].filter (fun line => classify line = .clause) = ["", "1 0"]
    ∧ ∀ header : String, (main lcg 0 { as_cnf_index := 1 } ["", "1 0", "a 1 0"]).out
        ≠ header :: (["", "1 0", "a 1 0"].filter (fun line => classify line = .clause)
            ++ unitClauses [1]) := by
  have hout : (main lcg 0 { as_cnf_index := 1 } ["", "1 0", "a 1 0"]).out
      = ["p cnf 1 2", "1 0", "1 0"] := by decide
  have hfil : ["", "1 0", "a 1 0"].filter (fun line => classify line = .clause) = ["", "1 0"] := by
    decide
  refine ⟨hout, hfil, ?_⟩
  intro header h
  rw [hout, hfil] at h
  have hlen := congrArg List.length h
  simp [unitClauses] at hlen

/-- C7, amended: for every file and every resolvable cube, the AsCNF run succeeds and its
output is exactly the header line `p cnf <nvars> <nclauses>`, then every NON-EMPTY line whose
first character is none of `c`, `p`, `a`, verbatim and in original order (Comment, Header,
Cube and empty lines are dropped), then one line `<lit> 0` per literal of the resolved cube,
in the cube's literal order. -/
theorem as_cnf_output_lines (R : Rng) (rd : Nat) (o : Options)
    (content : List String) (k : Nat) (h : Resolves R rd o content k) :
    ∃ cube lits nvars, (content.filter isCubeLine)[k]? = some cube
      ∧ parse_cube_literals cube = some lits
      ∧ count_variables content (content.filter isCubeLine) = some nvars
      ∧ main R rd o content
          = ⟨cnfHeader nvars (count_clauses content + lits.length)
              :: (content.filter (fun line => classify line = .clause && !line.data.isEmpty)
                  ++ lits.map (fun lit => toString lit ++ " 0")),
            [], .returned 0⟩ := by
  have hk := resolves_lt R rd o content k h
  have hcube : (content.filter isCubeLine)[k]? = some (content.filter isCubeLine)[k] :=
    List.getElem?_eq_getElem hk
  have he := emitCnf_eq content k _ hcube
  have hfil : content.filter (fun line => !skippedAsClause line)
      = content.filter (fun line => classify line = .clause && !line.data.isEmpty) := by
    congr 1
    funext line
    exact not_skippedAsClause line
  rw [main_as_cnf R rd o content k h, he.2, hfil]
  exact ⟨_, _, _, hcube, he.1, count_variables_eq content, rfl⟩

/-- A concrete run on which the hypotheses above hold, with the conclusion they give. -/
theorem as_cnf_output_lines_witness :
    Resolves lcg 0 { as_cnf_index := 2 } ["c x", "", "1 2 0", "a 1 0", "a -1 2 0"] 1
    ∧ ∃ cube lits nvars,
      (["c x", "", "1 2 0", "a 1 0", "a -1 2 0"].filter isCubeLine)[1]? = some cube
      ∧ parse_cube_literals cube = some lits
      ∧ count_variables ["c x", "", "1 2 0", "a 1 0", "a -1 2 0"]
          (["c x", "", "1 2 0", "a 1 0", "a -1 2 0"].filter isCubeLine) = some nvars
      ∧ main lcg 0 { as_cnf_index := 2 } ["c x", "", "1 2 0", "a 1 0", "a -1 2 0"]
          = ⟨cnfHeader nvars (count_clauses ["c x", "", "1 2 0", "a 1 0", "a -1 2 0"] + lits.length)
              :: (["c x", "", "1 2 0", "a 1 0", "a -1 2 0"].filter
                    (fun line => classify line = .clause && !line.data.isEmpty)
                  ++ lits.map (fun lit => toString lit ++ " 0")),
            [], .returned 0⟩ :=
  ⟨by unfold Resolves; decide,
    as_cnf_output_lines lcg 0 { as_cnf_index := 2 } ["c x", "", "1 2 0", "a 1 0", "a -1 2 0"] 1
      (by unfold Resolves; decide)⟩

/-- C8: on the file `p cnf 3 2`, `1 2 0`, `-1 3 0`, `a 1 0`, `a -1 2 0`, AsCNF with the
1-based index 1 succeeds, whatever the engine and the seed, writes nothing to standard error,
and its output lines are exactly `p cnf 3 3`, `1 2 0`, `-1 3 0`, `1 0`. -/
theorem as_cnf_example (R : Rng) (rd : Nat) (seed : Option Nat) :
    main R rd { seed := seed, as_cnf_index := 1 }
        ["p cnf 3 2", "1 2 0", "-1 3 0", "a 1 0", "a -1 2 0"]
      = ⟨["p cnf 3 3", "1 2 0", "-1 3 0", "1 0"], [], .returned 0⟩ := by
  have hr : Resolves R rd { seed := seed, as_cnf_index := 1 }
      ["p cnf 3 2", "1 2 0", "-1 3 0", "a 1 0", "a -1 2 0"] 0 :=
    ⟨by show (-1 : Int) < 0; decide, by decide, Or.inr ⟨rfl, rfl, by decide⟩⟩
  rw [main_as_cnf R rd _ _ 0 hr]
  decide

/-- C9: for every file with at least one cube line and every supplied index `i` (a natural
number), the AsCNF run ends with the out-of-range error exactly when `i = 0` or
`i > cube_count`; otherwise it succeeds and the unit clauses it emits are the literals of the
cube at 0-based position `i - 1` of the file's cube lines in original order. -/
theorem as_cnf_index_validation (R : Rng) (rd : Nat) (seed : Option Nat) (i : Nat)
    (content : List String) (hne : content.filter isCubeLine ≠ []) :
    (main R rd { seed := seed, as_cnf_index := (i : Int) } content = indexOutOfRange (i : Int)
        ↔ (i = 0 ∨ (content.filter isCubeLine).length < i))
    ∧ (¬ (i = 0 ∨ (content.filter isCubeLine).length < i) →
        (main R rd { seed := seed, as_cnf_index := (i : Int) } content).status = .returned 0
        ∧ ∃ cube header, (content.filter isCubeLine)[i - 1]? = some cube
          ∧ (main R rd { seed := seed, as_cnf_index := (i : Int) } content).out
              = header :: (content.filter (fun line => !skippedAsClause line)
                  ++ unitClauses (readLits (cube.data.drop 1)))) := by
  have hin : ¬ (i = 0 ∨ (content.filter isCubeLine).length < i) →
      ∃ cube, (content.filter isCubeLine)[i - 1]? = some cube
        ∧ main R rd { seed := seed, as_cnf_index := (i : Int) } content
          = ⟨cnfHeader ((insertAbs [] (clauseLiterals content
                ++ cubeLiterals (content.filter isCubeLine))).getLast?.getD 0)
              (count_clauses content + (readLits (cube.data.drop 1)).length)
              :: (content.filter (fun line => !skippedAsClause line)
                  ++ unitClauses (readLits (cube.data.drop 1))),
            [], .returned 0⟩ := by
    intro hi
    have hlt : i - 1 < (content.filter isCubeLine).length := by omega
    have hr : Resolves R rd { seed := seed, as_cnf_index := (i : Int) } content (i - 1) := by
      refine ⟨by show (-1 : Int) < 0; decide, hne, Or.inr ⟨rfl, ?_, hlt⟩⟩
      show (i : Int) = ((i - 1 : Nat) : Int) + 1
      omega
    have hcube : (content.filter isCubeLine)[i - 1]? = some (content.filter isCubeLine)[i - 1] :=
      List.getElem?_eq_getElem hlt
    exact ⟨_, hcube, by rw [main_as_cnf R rd _ content (i - 1) hr, (emitCnf_eq content _ _ hcube).2]⟩
  refine ⟨⟨?_, ?_⟩, ?_⟩
  · intro hfail
    by_contra hi
    obtain ⟨cube, _, hm⟩ := hin hi
    rw [hm] at hfail
    have := congrArg Outcome.status hfail
    simp [indexOutOfRange] at this
  · intro hi
    have hs : ¬ ((0 : Int) ≤ -1) := by decide
    have h2 : ((i : Int) - 1 < 0 ∨ ((content.filter isCubeLine).length : Int) ≤ (i : Int) - 1) := by
      omega
    unfold main
    rw [readCubes_eq]
    simp only [hs, if_false, Int.natCast_nonneg, decide_True, Bool.or_false, if_true, hne, h2]
    simp
  · intro hi
    obtain ⟨cube, hcube, hm⟩ := hin hi
    rw [hm]
    exact ⟨rfl, cube, _, hcube, rfl⟩

/-- A concrete run on which the hypotheses above hold, with the conclusion they give. -/
theorem as_cnf_index_validation_witness :
    ["1 0", "a 1 0", "a 5 0"].filter isCubeLine ≠ []
    ∧ (main lcg 0 { seed := some 3, as_cnf_index := ((2 : Nat) : Int) } ["1 0", "a 1 0", "a 5 0"]
          = indexOutOfRange ((2 : Nat) : Int)
        ↔ (2 = 0 ∨ (["1 0", "a 1 0", "a 5 0"].filter isCubeLine).length < 2))
    ∧ (¬ (2 = 0 ∨ (["1 0", "a 1 0", "a 5 0"].filter isCubeLine).length < 2) →
        (main lcg 0 { seed := some 3, as_cnf_index := ((2 : Nat) : Int) }
            ["1 0", "a 1 0", "a 5 0"]).status = .returned 0
        ∧ ∃ cube header, (["1 0", "a 1 0", "a 5 0"].filter isCubeLine)[2 - 1]? = some cube
          ∧ (main lcg 0 { seed := some 3, as_cnf_index := ((2 : Nat) : Int) }
                ["1 0", "a 1 0", "a 5 0"]).out
              = header :: (["1 0", "a 1 0", "a 5 0"].filter (fun line => !skippedAsClause line)
                  ++ unitClauses (readLits (cube.data.drop 1)))) :=
  ⟨by decide, as_cnf_index_validation lcg 0 (some 3) 2 ["1 0", "a 1 0", "a 5 0"] (by decide)⟩

/-- C10: for every file without a cube line, AsCNF mode, in the index variant with any index
`>= 0` and in the random variant, ends with the no-cubes error and no output; the no-cubes
check comes before the index validation, so the out-of-range error is not the one reported. -/
theorem as_cnf_without_cubes (R : Rng) (rd : Nat) (o : Options) (content : List String)
    (hs : o.sample_count < 0) (hm : 0 ≤ o.as_cnf_index ∨ o.as_cnf_random = true)
    (hc : ∀ line ∈ content, isCubeLine line = false) :
    main R rd o content = noCubes
    ∧ noCubes = ⟨[], ["No cubes found in file"], .returned 1⟩
    ∧ main R rd o content ≠ indexOutOfRange o.as_cnf_index := by
  have hs2 : ¬ (0 ≤ o.sample_count) := not_le.mpr hs
  have hnil : content.filter isCubeLine = [] := by
    rw [List.filter_eq_nil_iff]
    intro a ha
    simp [hc a ha]
  have hmode : (decide (0 ≤ o.as_cnf_index) || o.as_cnf_random) = true := by
    rcases hm with h | h
    · simp [h]
    · simp [h]
  have hmain : main R rd o content = noCubes := by
    unfold main
    rw [readCubes_eq, hnil]
    simp only [hs2, if_false, hmode, if_true]
  refine ⟨hmain, rfl, ?_⟩
  rw [hmain]
  intro h
  have h1 := congrArg Outcome.err h
  simp only [noCubes, indexOutOfRange, List.cons.injEq, and_true] at h1
  have h2 := congrArg String.data h1
  rw [String.data_append] at h2
  change 'N' :: _ = 'C' :: _ at h2
  simp at h2

/-- A concrete run on which the hypotheses above hold, with the conclusion they give. -/
theorem as_cnf_without_cubes_witness :
    (({ as_cnf_index := 0 } : Options).sample_count < 0)
    ∧ (0 ≤ ({ as_cnf_index := 0 } : Options).as_cnf_index
        ∨ ({ as_cnf_index := 0 } : Options).as_cnf_random = true)
    ∧ (∀ line ∈ ["p cnf 1 1", "1 0", ""], isCubeLine line = false)
    ∧ main lcg 0 { as_cnf_index := 0 } ["p cnf 1 1", "1 0", ""] = noCubes
    ∧ noCubes = ⟨[], ["No cubes found in file"], .returned 1⟩
    ∧ main lcg 0 { as_cnf_index := 0 } ["p cnf 1 1", "1 0", ""]
        ≠ indexOutOfRange ({ as_cnf_index := 0 } : Options).as_cnf_index :=
  ⟨by decide, by decide, by decide,
    as_cnf_without_cubes lcg 0 { as_cnf_index := 0 } ["p cnf 1 1", "1 0", ""]
      (by decide) (by decide) (by decide)⟩

/-! ## The outcomes of the CNF export -/

theorem main_no_cubes (R : Rng) (rd : Nat) (o : Options) (content : List String)
    (hs : o.sample_count < 0) (hm : 0 ≤ o.as_cnf_index ∨ o.as_cnf_random = true)
    (hnil : content.filter isCubeLine = []) : main R rd o content = noCubes := by
  have hs2 : ¬ (0 ≤ o.sample_count) := not_le.mpr hs
  have hmode : (decide (0 ≤ o.as_cnf_index) || o.as_cnf_random) = true := by
    rcases hm with h | h
    · simp [h]
    · simp [h]
  unfold main
  rw [readCubes_eq, hnil]
  simp only [hs2, if_false, hmode, if_true]

theorem main_index_out_of_range (R : Rng) (rd : Nat) (o : Options) (content : List String)
    (hs : o.sample_count < 0) (hr : o.as_cnf_random = false) (hi : 0 ≤ o.as_cnf_index)
    (hne : content.filter isCubeLine ≠ [])
    (hout : o.as_cnf_index = 0 ∨ ((content.filter isCubeLine).length : Int) < o.as_cnf_index) :
    main R rd o content = indexOutOfRange o.as_cnf_index := by
  have hs2 : ¬ (0 ≤ o.sample_count) := not_le.mpr hs
  have h2 : (o.as_cnf_index - 1 < 0
      ∨ ((content.filter isCubeLine).length : Int) ≤ o.as_cnf_index - 1) := by
    omega
  unfold main
  rw [readCubes_eq]
  simp only [hs2, if_false, hi, hr, decide_True, Bool.or_false, if_true, hne, h2]
  simp

/-- An AsCNF run ends in one of three ways: no cube, index out of range, or a cube is
resolved. -/
theorem as_cnf_cases (R : Rng) (rd : Nat) (o : Options) (content : List String)
    (hs : o.sample_count < 0) (hm : 0 ≤ o.as_cnf_index ∨ o.as_cnf_random = true) :
    main R rd o content = noCubes ∨ main R rd o content = indexOutOfRange o.as_cnf_index
      ∨ ∃ k, Resolves R rd o content k := by
  by_cases hnil : content.filter isCubeLine = []
  · exact Or.inl (main_no_cubes R rd o content hs hm hnil)
  · cases hr : o.as_cnf_random with
    | true => exact Or.inr (Or.inr ⟨_, hs, hnil, Or.inl ⟨hr, rfl⟩⟩)
    | false =>
      have hi : 0 ≤ o.as_cnf_index := by
        rcases hm with h | h
        · exact h
        · rw [hr] at h; exact absurd h (by decide)
      by_cases hout : o.as_cnf_index = 0
          ∨ ((content.filter isCubeLine).length : Int) < o.as_cnf_index
      · exact Or.inr (Or.inl (main_index_out_of_range R rd o content hs hr hi hnil hout))
      · refine Or.inr (Or.inr ⟨(o.as_cnf_index - 1).toNat, hs, hnil, Or.inr ⟨hr, ?_, ?_⟩⟩)
        · omega
        · omega

/-- A resolved cube gives a successful run with a header in front. -/
theorem resolved_run_succeeds (R : Rng) (rd : Nat) (o : Options) (content : List String)
    (k : Nat) (h : Resolves R rd o content k) :
    (main R rd o content).status = .returned 0 ∧ (main R rd o content).err = []
      ∧ (main R rd o content).out ≠ [] := by
  have hk := resolves_lt R rd o content k h
  have hcube : (content.filter isCubeLine)[k]? = some (content.filter isCubeLine)[k] :=
    List.getElem?_eq_getElem hk
  rw [main_as_cnf R rd o content k h, (emitCnf_eq content k _ hcube).2]
  exact ⟨rfl, rfl, List.cons_ne_nil _ _⟩

/-- C11: whenever an AsCNF run fails, that is, ends otherwise than by returning 0, nothing
has been written to standard output, and the run is one of the two error exits of the
source, no cube or index out of range; a parse failure of the cube does not exist in the
source, so the header is only ever written by a run that succeeds. -/
theorem as_cnf_failure_writes_nothing (R : Rng) (rd : Nat) (o : Options)
    (content : List String) (hs : o.sample_count < 0)
    (hm : 0 ≤ o.as_cnf_index ∨ o.as_cnf_random = true)
    (hfail : (main R rd o content).status ≠ .returned 0) :
    (main R rd o content).out = []
    ∧ (main R rd o content = noCubes
        ∨ main R rd o content = indexOutOfRange o.as_cnf_index) := by
  rcases as_cnf_cases R rd o content hs hm with h | h | ⟨k, h⟩
  · exact ⟨by rw [h]; rfl, Or.inl h⟩
  · exact ⟨by rw [h]; rfl, Or.inr h⟩
  · exact absurd (resolved_run_succeeds R rd o content k h).1 hfail

/-- A concrete run on which the hypotheses above hold, with the conclusion they give. -/
theorem as_cnf_failure_writes_nothing_witness :
    (({ as_cnf_index := 3 } : Options).sample_count < 0)
    ∧ (0 ≤ ({ as_cnf_index := 3 } : Options).as_cnf_index
        ∨ ({ as_cnf_index := 3 } : Options).as_cnf_random = true)
    ∧ (main lcg 0 { as_cnf_index := 3 } ["1 0", "a 1 0", "a -1 0"]).status ≠ .returned 0
    ∧ (main lcg 0 { as_cnf_index := 3 } ["1 0", "a 1 0", "a -1 0"]).out = []
    ∧ (main lcg 0 { as_cnf_index := 3 } ["1 0", "a 1 0", "a -1 0"] = noCubes
        ∨ main lcg 0 { as_cnf_index := 3 } ["1 0", "a 1 0", "a -1 0"]
            = indexOutOfRange ({ as_cnf_index := 3 } : Options).as_cnf_index) :=
  ⟨by decide, by decide, by decide,
    as_cnf_failure_writes_nothing lcg 0 { as_cnf_index := 3 } ["1 0", "a 1 0", "a -1 0"]
      (by decide) (by decide) (by decide)⟩

/-! ## Reading a sequence of tokens -/

theorem isSpace_not_digit (c : Char) (h : isSpace c = true) : isDigitChar c = false := by
  unfold isSpace at h
  unfold isDigitChar
  simp only [Bool.or_eq_true, Bool.and_eq_true, decide_eq_true_eq] at h
  simp only [Bool.and_eq_false_imp, decide_eq_true_eq, decide_eq_false_iff_not]
  omega

theorem dropWhile_isSpace_append (sep rest : List Char) (hsep : sep.all isSpace = true)
    (hrest : ∀ c ∈ rest.head?, isSpace c = false) :
    (sep ++ rest).dropWhile isSpace = rest := by
  induction sep with
  | nil =>
    cases rest with
    | nil => rfl
    | cons c cs =>
      have := hrest c (by simp)
      simp [List.dropWhile, this]
  | cons s ss ih =>
    simp only [List.all_cons, Bool.and_eq_true] at hsep
    simp [List.dropWhile, hsep.1, ih hsep.2]

theorem takeWhile_digits_append (ds rest : List Char) (hds : ds.all isDigitChar = true)
    (hrest : ∀ c ∈ rest.head?, isDigitChar c = false) :
    (ds ++ rest).takeWhile isDigitChar = ds ∧ (ds ++ rest).dropWhile isDigitChar = rest := by
  induction ds with
  | nil =>
    cases rest with
    | nil => exact ⟨rfl, rfl⟩
    | cons c cs =>
      have := hrest c (by simp)
      simp [List.takeWhile, List.dropWhile, this]
  | cons d ds ih =>
    simp only [List.all_cons, Bool.and_eq_true] at hds
    simp [List.takeWhile, List.dropWhile, hds.1, ih hds.2]

theorem splitSign_cases (t : List Char) :
    (∃ r, t = '-' :: r ∧ splitSign t = (true, r)) ∨ (∃ r, t = '+' :: r ∧ splitSign t = (false, r))
      ∨ ((∀ r, t ≠ '-' :: r) ∧ (∀ r, t ≠ '+' :: r) ∧ splitSign t = (false, t)) := by
  cases t with
  | nil => exact Or.inr (Or.inr ⟨by simp, by simp, rfl⟩)
  | cons c r =>
    by_cases hm : c = '-'
    · subst hm; exact Or.inl ⟨r, rfl, rfl⟩
    · by_cases hp : c = '+'
      · subst hp; exact Or.inr (Or.inl ⟨r, rfl, rfl⟩)
      · refine Or.inr (Or.inr ⟨by simp [hm], by simp [hp], ?_⟩)
        unfold splitSign
        split
        · rename_i heq; simp at heq; exact absurd heq.1 hm
        · rename_i heq; simp at heq; exact absurd heq.1 hp
        · rfl

theorem splitSign_append (t rest : List Char) (ht : (splitSign t).2 ≠ []) :
    splitSign (t ++ rest) = ((splitSign t).1, (splitSign t).2 ++ rest) := by
  rcases splitSign_cases t with ⟨r, hr, hs⟩ | ⟨r, hr, hs⟩ | ⟨hm, hp, hs⟩
  · rw [hs, hr]; rfl
  · rw [hs, hr]; rfl
  · rw [hs]
    rw [hs] at ht
    have ht2 : t ≠ [] := ht
    obtain ⟨c, r, hcr⟩ := List.exists_cons_of_ne_nil ht2
    subst hcr
    rcases splitSign_cases (c :: r ++ rest) with ⟨r', hr', _⟩ | ⟨r', hr', _⟩ | ⟨_, _, hs'⟩
    · simp only [List.cons_append, List.cons.injEq] at hr'
      exact absurd (by rw [hr'.1]) (hm r)
    · simp only [List.cons_append, List.cons.injEq] at hr'
      exact absurd (by rw [hr'.1]) (hp r)
    · exact hs'

theorem intToken_head (t : List Char) (ht : isIntToken t = true) :
    ∀ c ∈ t.head?, isSpace c = false := by
  unfold isIntToken at ht
  simp only [Bool.and_eq_true] at ht
  obtain ⟨⟨⟨hne, hall⟩, _⟩, _⟩ := ht
  rcases splitSign_cases t with ⟨r, hr, _⟩ | ⟨r, hr, _⟩ | ⟨_, _, hs⟩
  · subst hr; intro c hc; simp at hc; subst hc; decide
  · subst hr; intro c hc; simp at hc; subst hc; decide
  · rw [hs] at hall
    intro c hc
    cases t with
    | nil => simp at hc
    | cons d r =>
      simp at hc
      subst hc
      simp only [List.all_cons, Bool.and_eq_true] at hall
      cases hsp : isSpace d with
      | false => rfl
      | true => rw [isSpace_not_digit d hsp] at hall; exact absurd hall.1 (by decide)

/-- One extraction in front of a well-formed token reads exactly that token. -/
theorem extractInt_token (sep t rest : List Char) (hsep : sep.all isSpace = true)
    (ht : isIntToken t = true) (hrest : ∀ c ∈ rest.head?, isDigitChar c = false) :
    extractInt (sep ++ (t ++ rest)) = some (tokenValue t, rest) := by
  have hhead := intToken_head t ht
  unfold isIntToken at ht
  simp only [Bool.and_eq_true, decide_eq_true_eq] at ht
  obtain ⟨⟨⟨hne, hall⟩, hlo⟩, hhi⟩ := ht
  have hne2 : (splitSign t).2 ≠ [] := by
    intro h; rw [h] at hne; simp at hne
  have htne : t ≠ [] := by
    intro h; rw [h] at hne2; exact hne2 rfl
  have hhead2 : ∀ c ∈ (t ++ rest).head?, isSpace c = false := by
    intro c hc
    rw [List.head?_append_of_ne_nil _ htne] at hc
    exact hhead c hc
  have h1 := dropWhile_isSpace_append sep (t ++ rest) hsep hhead2
  have h2 := splitSign_append t rest hne2
  have h3 := takeWhile_digits_append (splitSign t).2 rest hall hrest
  have hrange : ¬ (tokenValue t < -2147483648 ∨ 2147483647 < tokenValue t) := by omega
  unfold extractInt
  simp only [h1, h2, h3.1, h3.2, hne2, if_false]
  unfold tokenValue at hrange
  simp only [hrange, if_false]
  rfl

theorem extractInt_spaces (trail : List Char) (h : trail.all isSpace = true) :
    extractInt trail = none := by
  have h1 : trail.dropWhile isSpace = [] := by
    have := dropWhile_isSpace_append trail [] h (by simp)
    simpa using this
  unfold extractInt
  simp [h1, splitSign]

theorem readLits_of_extract_none (s : List Char) (h : extractInt s = none) :
    readLits s = [] := by
  rw [readLits_unfold, h]

theorem renderTokens_cons (p : List Char × List Char) (ts : List (List Char × List Char))
    (rest : List Char) :
    renderTokens (p :: ts) ++ rest = p.1 ++ (p.2 ++ (renderTokens ts ++ rest)) := by
  simp [renderTokens]

theorem renderTokens_head (ts : List (List Char × List Char)) (rest : List Char)
    (hts : ∀ p ∈ ts, wellFormedCell p = true)
    (hrest : ∀ c ∈ rest.head?, isDigitChar c = false) :
    ∀ c ∈ (renderTokens ts ++ rest).head?, isDigitChar c = false := by
  cases ts with
  | nil => simpa [renderTokens] using hrest
  | cons q qs =>
    have hq := hts q (List.mem_cons_self _ _)
    unfold wellFormedCell isSeparator at hq
    simp only [Bool.and_eq_true] at hq
    obtain ⟨⟨hne, hall⟩, _⟩ := hq
    rw [renderTokens_cons]
    cases hq1 : q.1 with
    | nil => rw [hq1] at hne; simp at hne
    | cons s ss =>
      rw [hq1] at hall
      simp only [List.all_cons, Bool.and_eq_true] at hall
      intro c hc
      simp at hc
      subst hc
      exact isSpace_not_digit _ hall.1

/-- The extraction loop on a sequence of well-formed tokens returns the values of the tokens
before the first token of value zero, provided it reads nothing from what follows them. -/
theorem readLits_tokens (ts : List (List Char × List Char)) (rest : List Char)
    (hts : ∀ p ∈ ts, wellFormedCell p = true)
    (hrest : ∀ c ∈ rest.head?, isDigitChar c = false) (hnil : readLits rest = []) :
    readLits (renderTokens ts ++ rest)
      = (ts.map (fun p => tokenValue p.2)).takeWhile (fun v => v ≠ 0) := by
  induction ts with
  | nil => simpa [renderTokens] using hnil
  | cons p ps ih =>
    have hp := hts p (List.mem_cons_self _ _)
    have hps : ∀ q ∈ ps, wellFormedCell q = true := fun q hq => hts q (List.mem_cons_of_mem _ hq)
    unfold wellFormedCell isSeparator at hp
    simp only [Bool.and_eq_true] at hp
    obtain ⟨⟨_, hsep⟩, htok⟩ := hp
    rw [renderTokens_cons, readLits_unfold,
      extractInt_token p.1 p.2 _ hsep htok (renderTokens_head ps rest hps hrest)]
    simp only [List.map_cons, List.takeWhile_cons]
    by_cases hz : tokenValue p.2 = 0
    · simp [hz]
    · simp [hz, ih hps]

/-- The run that resolves a cube, written out. -/
theorem main_resolved (R : Rng) (rd : Nat) (o : Options) (content : List String) (k : Nat)
    (cube : String) (h : Resolves R rd o content k)
    (hcube : (content.filter isCubeLine)[k]? = some cube) :
    main R rd o content
      = ⟨cnfHeader ((insertAbs [] (clauseLiterals content
            ++ cubeLiterals (content.filter isCubeLine))).getLast?.getD 0)
          (count_clauses content + (readLits (cube.data.drop 1)).length)
          :: (content.filter (fun line => !skippedAsClause line)
              ++ unitClauses (readLits (cube.data.drop 1))),
        [], .returned 0⟩ := by
  rw [main_as_cnf R rd o content k h, (emitCnf_eq content k cube hcube).2]

theorem filter_clause_lines (content : List String) :
    content.filter (fun line => !skippedAsClause line)
      = content.filter (fun line => classify line = .clause && !line.data.isEmpty) := by
  congr 1
  funext line
  exact not_skippedAsClause line

/-- C12: for every cube line made of the marker `a`, a sequence of integer tokens each
preceded by whitespace, and trailing whitespace, `parse_cube_literals` returns the values of
the tokens before the first token of value 0 (all of them when there is none), in order; the
0 and what follows it are left out.  For the empty cube `a 0` it returns the empty sequence,
and an AsCNF run that resolves such a cube succeeds, emits no unit clause and declares
`count_clauses` of the file, nothing added. -/
theorem parse_cube_literals_tokens (ts : List (List Char × List Char)) (trail : List Char)
    (R : Rng) (rd : Nat) (o : Options) (content : List String) (k : Nat)
    (hts : ∀ p ∈ ts, wellFormedCell p = true) (htrail : trail.all isSpace = true)
    (h : Resolves R rd o content k) (hcube : (content.filter isCubeLine)[k]? = some "a 0") :
    parse_cube_literals ⟨'a' :: (renderTokens ts ++ trail)⟩
        = some ((ts.map (fun p => tokenValue p.2)).takeWhile (fun v => v ≠ 0))
    ∧ parse_cube_literals "a 0" = some []
    ∧ ∃ nvars, main R rd o content
        = ⟨cnfHeader nvars (count_clauses content)
            :: content.filter (fun line => classify line = .clause && !line.data.isEmpty),
          [], .returned 0⟩ := by
  have htrail_head : ∀ c ∈ trail.head?, isDigitChar c = false := by
    intro c hc
    cases trail with
    | nil => simp at hc
    | cons s ss =>
      simp at hc
      subst hc
      simp only [List.all_cons, Bool.and_eq_true] at htrail
      exact isSpace_not_digit _ htrail.1
  have hzero : readLits ("a 0".data.drop 1) = [] := by decide
  refine ⟨?_, by decide, ?_⟩
  · simp only [parse_cube_literals, List.cons_ne_nil, if_false, List.drop_succ_cons, List.drop_zero]
    rw [readLits_tokens ts trail hts htrail_head
      (readLits_of_extract_none trail (extractInt_spaces trail htrail))]
  · rw [main_resolved R rd o content k "a 0" h hcube, hzero, filter_clause_lines]
    refine ⟨(insertAbs [] (clauseLiterals content
      ++ cubeLiterals (content.filter isCubeLine))).getLast?.getD 0, ?_⟩
    simp [unitClauses]

/-- A concrete run on which the hypotheses above hold, with the conclusion they give. -/
theorem parse_cube_literals_tokens_witness :
    (∀ p ∈ [([' '], ['1']), ([' '], ['-', '2']), ([' ', ' '], ['0']), ([' '], ['3'])],
        wellFormedCell p = true)
    ∧ [' '].all isSpace = true
    ∧ Resolves lcg 0 { as_cnf_index := 1 } ["1 0", "a 0"] 0
    ∧ (["1 0", "a 0"].filter isCubeLine)[0]? = some "a 0"
    ∧ parse_cube_literals
          ⟨'a' :: (renderTokens [([' '], ['1']), ([' '], ['-', '2']), ([' ', ' '], ['0']),
              ([' '], ['3'])] ++ [' '])⟩
        = some (([([' '], ['1']), ([' '], ['-', '2']), ([' ', ' '], ['0']),
              ([' '], ['3'])].map (fun p => tokenValue p.2)).takeWhile (fun v => v ≠ 0))
    ∧ parse_cube_literals "a 0" = some []
    ∧ ∃ nvars, main lcg 0 { as_cnf_index := 1 } ["1 0", "a 0"]
        = ⟨cnfHeader nvars (count_clauses ["1 0", "a 0"])
            :: ["1 0", "a 0"].filter (fun line => classify line = .clause && !line.data.isEmpty),
          [], .returned 0⟩ :=
  ⟨by decide, by decide, by unfold Resolves; decide, by decide,
    parse_cube_literals_tokens
      [([' '], ['1']), ([' '], ['-', '2']), ([' ', ' '], ['0']), ([' '], ['3'])] [' ']
      lcg 0 { as_cnf_index := 1 } ["1 0", "a 0"] 0
      (by decide) (by decide) (by unfold Resolves; decide) (by decide)⟩

/-- C14: with an explicit seed, the whole outcome of a run, in every mode (Shuffle, Sample,
AsCNF by index or random), is the same for any two runs on the same file with the same
options, whatever the values of the entropy source in the two runs: the output is a function
of the file's lines, the options and the seed only. -/
theorem seeded_run_is_deterministic (R : Rng) (rd1 rd2 : Nat) (seed_value : Nat)
    (o : Options) (content : List String) :
    main R rd1 { o with seed := some seed_value } content
      = main R rd2 { o with seed := some seed_value } content
    ∧ (main R rd1 { o with seed := some seed_value } content).out
      = (main R rd2 { o with seed := some seed_value } content).out := by
  have h : main R rd1 { o with seed := some seed_value } content
      = main R rd2 { o with seed := some seed_value } content := rfl
  exact ⟨h, congrArg Outcome.out h⟩

/-- C15: for every file, every seed and every `n >= cube_count`, Sample(n) and Shuffle give
the same outcome, line for line. -/
theorem sample_all_is_shuffle (R : Rng) (rd : Nat) (seed : Option Nat) (n : Nat)
    (content : List String) (hn : (content.filter isCubeLine).length ≤ n) :
    main R rd { seed := seed, sample_count := (n : Int) } content
      = main R rd { seed := seed } content
    ∧ (main R rd { seed := seed, sample_count := (n : Int) } content).out
      = (main R rd { seed := seed } content).out := by
  have h : main R rd { seed := seed, sample_count := (n : Int) } content
      = main R rd { seed := seed } content := by
    have hs := main_sample R rd { seed := seed } n content
    rw [main_shuffle]
    rw [show ({ seed := seed, sample_count := (n : Int) } : Options)
      = { ({ seed := seed } : Options) with sample_count := (n : Int) } from rfl, hs]
    rw [List.take_of_length_le (by rw [(shuffle_perm R _ _).length_eq]; exact hn)]
  exact ⟨h, congrArg Outcome.out h⟩

/-- A concrete run on which the hypothesis above holds, with the conclusion it gives. -/
theorem sample_all_is_shuffle_witness :
    (["p cnf 2 1", "1 2 0", "a 1 0", "a -1 0", "a 2 0"].filter isCubeLine).length ≤ 5
    ∧ main lcg 0 { seed := some 42, sample_count := ((5 : Nat) : Int) }
          ["p cnf 2 1", "1 2 0", "a 1 0", "a -1 0", "a 2 0"]
        = main lcg 0 { seed := some 42 } ["p cnf 2 1", "1 2 0", "a 1 0", "a -1 0", "a 2 0"]
    ∧ (main lcg 0 { seed := some 42, sample_count := ((5 : Nat) : Int) }
          ["p cnf 2 1", "1 2 0", "a 1 0", "a -1 0", "a 2 0"]).out
        = (main lcg 0 { seed := some 42 }
            ["p cnf 2 1", "1 2 0", "a 1 0", "a -1 0", "a 2 0"]).out :=
  ⟨by decide, sample_all_is_shuffle lcg 0 (some 42) 5
    ["p cnf 2 1", "1 2 0", "a 1 0", "a -1 0", "a 2 0"] (by decide)⟩

/-! ## The largest variable of a file and a cube list -/

theorem count_variables_of_cubes (content cubes : List String)
    (hc : ∀ cube ∈ cubes, isCubeLine cube = true) :
    count_variables content cubes
      = some ((insertAbs [] (clauseLiterals content ++ cubeLiterals cubes)).getLast?.getD 0) := by
  unfold count_variables contentVariables
  rw [contentVariables_eq, cubeVariables_eq _ _ hc, insertAbs_append]

theorem clauseLiterals_append (a b : List String) :
    clauseLiterals (a ++ b) = clauseLiterals a ++ clauseLiterals b := by
  simp [clauseLiterals, List.filter_append, List.flatMap_append]

theorem clauseLiterals_skipped (line : String) (rest : List String)
    (h : line.data = [] ∨ firstChar line = some 'c' ∨ firstChar line = some 'p') :
    clauseLiterals (line :: rest) = clauseLiterals rest := by
  unfold clauseLiterals classify
  unfold firstChar at h
  cases hd : line.data with
  | nil => simp [List.filter_cons, hd, readLits_nil]
  | cons c cs =>
    rw [hd] at h
    rcases h with h | h | h
    · simp at h
    · simp at h; subst h; simp [List.filter_cons, hd]
    · simp at h; subst h; simp [List.filter_cons, hd]

/-- The largest variable in terms of the literals the extraction loop reads: for cube lists
made of cube lines and literals other than `-2^31`, `count_variables` returns their largest
absolute value. -/
theorem count_variables_eq_maxAbs (content cubes : List String)
    (hc : ∀ cube ∈ cubes, isCubeLine cube = true)
    (hmin : ∀ x ∈ clauseLiterals content ++ cubeLiterals cubes, x ≠ -2147483648) :
    count_variables content cubes = some (maxAbs (clauseLiterals content ++ cubeLiterals cubes))
    ∧ (clauseLiterals content ++ cubeLiterals cubes = [] → count_variables content cubes = some 0)
    ∧ (∀ x ∈ clauseLiterals content ++ cubeLiterals cubes,
        (x.natAbs : Int) ≤ maxAbs (clauseLiterals content ++ cubeLiterals cubes))
    ∧ (∀ pre post line, content = pre ++ line :: post →
        (line.data = [] ∨ firstChar line = some 'c' ∨ firstChar line = some 'p') →
        count_variables (pre ++ post) cubes = count_variables content cubes) := by
  have hmain : count_variables content cubes
      = some (maxAbs (clauseLiterals content ++ cubeLiterals cubes)) := by
    rw [count_variables_of_cubes content cubes hc, getLast_insertAbs _ hmin]
  refine ⟨hmain, ?_, le_maxAbs _, ?_⟩
  · intro hnil
    rw [hmain, hnil]
    rfl
  · intro pre post line hcontent hline
    have hlits : clauseLiterals (pre ++ post) = clauseLiterals content := by
      rw [hcontent, clauseLiterals_append, clauseLiterals_append,
        clauseLiterals_skipped line post hline]
    rw [count_variables_of_cubes content cubes hc, count_variables_of_cubes _ cubes hc, hlits]

/-! ## The first character of the lines of the CNF export -/

theorem digitChar_isDigit (d : Nat) (h : d < 10) : isDigitChar (Nat.digitChar d) = true := by
  interval_cases d <;> decide

theorem toDigitsCore_digits (fuel n : Nat) (ds : List Char)
    (hds : ∀ c ∈ ds, isDigitChar c = true) :
    ∀ c ∈ Nat.toDigitsCore 10 fuel n ds, isDigitChar c = true := by
  induction fuel generalizing n ds with
  | zero => simpa [Nat.toDigitsCore] using hds
  | succ fuel ih =>
    have hd : isDigitChar (Nat.digitChar (n % 10)) = true :=
      digitChar_isDigit _ (Nat.mod_lt _ (by decide))
    have hcons : ∀ c ∈ Nat.digitChar (n % 10) :: ds, isDigitChar c = true := by
      intro c hc
      rcases List.mem_cons.mp hc with h | h
      · rw [h]; exact hd
      · exact hds c h
    unfold Nat.toDigitsCore
    simp only
    split
    · exact hcons
    · exact ih _ _ hcons

theorem toDigitsCore_ne_nil (fuel n : Nat) (ds : List Char) (h : 0 < fuel ∨ ds ≠ []) :
    Nat.toDigitsCore 10 fuel n ds ≠ [] := by
  induction fuel generalizing n ds with
  | zero =>
    rcases h with h | h
    · omega
    · simpa [Nat.toDigitsCore] using h
  | succ fuel ih =>
    unfold Nat.toDigitsCore
    simp only
    split
    · exact List.cons_ne_nil _ _
    · exact ih _ _ (Or.inr (List.cons_ne_nil _ _))

/-- The decimal text of an `int` starts with a digit or with `-`. -/
theorem toString_int_head (x : Int) :
    ∃ c cs, (toString x).data = c :: cs ∧ (c = '-' ∨ isDigitChar c = true) := by
  cases x with
  | ofNat m =>
    have hdata : (toString (Int.ofNat m)).data = Nat.toDigitsCore 10 (m + 1) m [] := rfl
    have hne := toDigitsCore_ne_nil (m + 1) m [] (Or.inl (Nat.succ_pos m))
    obtain ⟨c, cs, hc⟩ := List.exists_cons_of_ne_nil hne
    refine ⟨c, cs, by rw [hdata, hc], Or.inr ?_⟩
    exact toDigitsCore_digits (m + 1) m [] (by simp) c (by rw [hc]; exact List.mem_cons_self _ _)
  | negSucc m =>
    exact ⟨'-', (toString (m + 1)).data, rfl, Or.inl rfl⟩

theorem unitClause_firstChar (lit : Int) :
    firstChar (toString lit ++ " 0") ≠ some 'p' ∧ firstChar (toString lit ++ " 0") ≠ some 'c'
      ∧ firstChar (toString lit ++ " 0") ≠ some 'a' := by
  obtain ⟨c, cs, hc, hcase⟩ := toString_int_head lit
  have hfirst : firstChar (toString lit ++ " 0") = some c := by
    simp [firstChar, String.data_append, hc]
  rw [hfirst]
  rcases hcase with h | h
  · subst h; decide
  · refine ⟨?_, ?_, ?_⟩ <;>
    · intro heq
      have := Option.some.inj heq
      subst this
      exact absurd h (by decide)

theorem clauseLine_firstChar (line : String) (h : skippedAsClause line = false) :
    firstChar line ≠ some 'p' ∧ firstChar line ≠ some 'c' ∧ firstChar line ≠ some 'a' := by
  unfold skippedAsClause at h
  simp only [Bool.or_eq_false_iff, decide_eq_false_iff_not] at h
  exact ⟨h.1.2, h.1.1.2, h.2⟩

theorem cnfHeader_firstChar (nvars : Int) (nclauses : Nat) :
    firstChar (cnfHeader nvars nclauses) = some 'p' := by
  unfold firstChar
  rw [cnfHeader_data]
  rfl

/-- C17: for every successful AsCNF run, the output is a header line `p cnf <nvars>
<nclauses>` followed by exactly `nclauses` lines (the retained clause lines and the unit
clauses); the header starts with `p`, and no line after it starts with `p`, `c` or `a`. -/
theorem as_cnf_header_matches_body (R : Rng) (rd : Nat) (o : Options)
    (content : List String) (hs : o.sample_count < 0)
    (hm : 0 ≤ o.as_cnf_index ∨ o.as_cnf_random = true)
    (hsucc : (main R rd o content).status = .returned 0) :
    ∃ nvars nclauses body,
      (main R rd o content).out = cnfHeader nvars nclauses :: body
      ∧ nclauses = body.length
      ∧ firstChar (cnfHeader nvars nclauses) = some 'p'
      ∧ ∀ line ∈ body, firstChar line ≠ some 'p' ∧ firstChar line ≠ some 'c'
          ∧ firstChar line ≠ some 'a' := by
  rcases as_cnf_cases R rd o content hs hm with h | h | ⟨k, h⟩
  · rw [h] at hsucc; exact absurd hsucc (by decide)
  · rw [h] at hsucc; exact absurd hsucc (by simp [indexOutOfRange])
  · have hk := resolves_lt R rd o content k h
    have hcube : (content.filter isCubeLine)[k]? = some (content.filter isCubeLine)[k] :=
      List.getElem?_eq_getElem hk
    rw [main_resolved R rd o content k _ h hcube]
    refine ⟨_, _, _, rfl, ?_, cnfHeader_firstChar _ _, ?_⟩
    · rw [List.length_append, count_clauses_eq]
      simp [unitClauses]
    · intro line hline
      rcases List.mem_append.mp hline with hl | hl
      · have := (List.mem_filter.mp hl).2
        exact clauseLine_firstChar line (by simpa using this)
      · unfold unitClauses at hl
        obtain ⟨lit, _, hlit⟩ := List.mem_map.mp hl
        rw [← hlit]
        exact unitClause_firstChar lit

/-- A concrete run on which the hypotheses above hold, with the conclusion they give. -/
theorem as_cnf_header_matches_body_witness :
    (({ as_cnf_index := 2 } : Options).sample_count < 0)
    ∧ (0 ≤ ({ as_cnf_index := 2 } : Options).as_cnf_index
        ∨ ({ as_cnf_index := 2 } : Options).as_cnf_random = true)
    ∧ (main lcg 0 { as_cnf_index := 2 } ["c x", "p cnf 2 1", "", "1 2 0", "a 1 0", "a -1 2 0"]).status
        = .returned 0
    ∧ ∃ nvars nclauses body,
      (main lcg 0 { as_cnf_index := 2 } ["c x", "p cnf 2 1", "", "1 2 0", "a 1 0", "a -1 2 0"]).out
        = cnfHeader nvars nclauses :: body
      ∧ nclauses = body.length
      ∧ firstChar (cnfHeader nvars nclauses) = some 'p'
      ∧ ∀ line ∈ body, firstChar line ≠ some 'p' ∧ firstChar line ≠ some 'c'
          ∧ firstChar line ≠ some 'a' :=
  ⟨by decide, by decide, by decide,
    as_cnf_header_matches_body lcg 0 { as_cnf_index := 2 }
      ["c x", "p cnf 2 1", "", "1 2 0", "a 1 0", "a -1 2 0"] (by decide) (by decide) (by decide)⟩

theorem mem_cubeLiterals_of_getElem? (cubes : List String) (k : Nat) (cube : String)
    (hcube : cubes[k]? = some cube) :
    ∀ lit ∈ readLits (cube.data.drop 1), lit ∈ cubeLiterals cubes := by
  intro lit hlit
  unfold cubeLiterals
  exact List.mem_flatMap.mpr ⟨cube, List.getElem?_mem hcube, hlit⟩

/-- A negative `--sample` count is treated as an absent one. -/
theorem negative_sample_is_absent (R : Rng) (rd : Nat) (o : Options) (content : List String)
    (hs : o.sample_count < 0) :
    main R rd o content = main R rd { o with sample_count := -1 } content := by
  have hs2 : ¬ (0 ≤ o.sample_count) := not_le.mpr hs
  have hs3 : ¬ ((0 : Int) ≤ -1) := by decide
  unfold main
  simp only [hs2, hs3, if_false]

/-- A negative `--as-cnf` index is treated as an absent one. -/
theorem negative_index_is_absent (R : Rng) (rd : Nat) (o : Options) (content : List String)
    (hi : o.as_cnf_index < 0) :
    main R rd o content = main R rd { o with as_cnf_index := -1 } content := by
  have hi2 : ¬ (0 ≤ o.as_cnf_index) := not_le.mpr hi
  have hi3 : ¬ ((0 : Int) ≤ -1) := by decide
  have hlt : o.as_cnf_index - 1 < 0 := by omega
  unfold main
  cases hr : o.as_cnf_random <;> simp [hi2, hi3, hr]

/-- C19: a run whose `--sample` count is negative or absent, whose `--as-cnf` index is
negative or absent and without `--as-cnf-random` does not fail and enters neither Sample
nor AsCNF mode: its outcome is that of the default Shuffle mode on the same file and seed,
it returns 0 and reports no error, in particular no index out of range.  A run with
`--sample n`, `n >= 0`, executes Sample mode whatever AsCNF selector is given with it.  In
every run a negative sample count, and likewise a negative index, has the effect of an
absent one. -/
theorem negative_selectors_fall_through (R : Rng) (rd : Nat) (o : Options)
    (content : List String) (n : Nat) (hs : o.sample_count < 0) (hi : o.as_cnf_index < 0)
    (hr : o.as_cnf_random = false) :
    main R rd o content = main R rd { seed := o.seed } content
    ∧ (main R rd o content).status = .returned 0
    ∧ (main R rd o content).err = []
    ∧ main R rd o content ≠ indexOutOfRange o.as_cnf_index
    ∧ (∀ (i : Int) (r : Bool),
        main R rd
            { seed := o.seed, sample_count := (n : Int), as_cnf_index := i, as_cnf_random := r }
            content
          = main R rd { seed := o.seed, sample_count := (n : Int) } content)
    ∧ (∀ o2 : Options, o2.sample_count < 0 →
        main R rd o2 content = main R rd { o2 with sample_count := -1 } content)
    ∧ (∀ o2 : Options, o2.as_cnf_index < 0 →
        main R rd o2 content = main R rd { o2 with as_cnf_index := -1 } content) := by
  have hs2 : ¬ (0 ≤ o.sample_count) := not_le.mpr hs
  have hi2 : ¬ (0 ≤ o.as_cnf_index) := not_le.mpr hi
  have hmain : main R rd o content
      = ⟨content.filter (fun line => !isCubeLine line)
          ++ (shuffle R (content.filter isCubeLine) (initGen R rd o.seed)).1,
         [], .returned 0⟩ := by
    simp [main, readCubes_eq, printedAsContent_eq, hs2, hi2, hr]
  refine ⟨by rw [hmain, main_shuffle], by rw [hmain], by rw [hmain], ?_, ?_,
    fun o2 h => negative_sample_is_absent R rd o2 content h,
    fun o2 h => negative_index_is_absent R rd o2 content h⟩
  · rw [hmain]
    intro h
    have := congrArg Outcome.status h
    simp [indexOutOfRange] at this
  · intro i r
    have h1 := main_sample R rd { seed := o.seed, as_cnf_index := i, as_cnf_random := r } n content
    have h2 := main_sample R rd { seed := o.seed } n content
    exact h1.trans h2.symm

/-- A concrete run on which the hypotheses above hold, with the conclusion they give. -/
theorem negative_selectors_fall_through_witness :
    (({ sample_count := -5, as_cnf_index := -2 } : Options).sample_count < 0)
    ∧ (({ sample_count := -5, as_cnf_index := -2 } : Options).as_cnf_index < 0)
    ∧ (({ sample_count := -5, as_cnf_index := -2 } : Options).as_cnf_random = false)
    ∧ main lcg 0 { sample_count := -5, as_cnf_index := -2 } ["1 0", "a 1 0", "a 5 0"]
        = main lcg 0 { seed := ({ sample_count := -5, as_cnf_index := -2 } : Options).seed }
            ["1 0", "a 1 0", "a 5 0"]
    ∧ (main lcg 0 { sample_count := -5, as_cnf_index := -2 } ["1 0", "a 1 0", "a 5 0"]).status
        = .returned 0
    ∧ (main lcg 0 { sample_count := -5, as_cnf_index := -2 } ["1 0", "a 1 0", "a 5 0"]).err = []
    ∧ main lcg 0 { sample_count := -5, as_cnf_index := -2 } ["1 0", "a 1 0", "a 5 0"]
        ≠ indexOutOfRange ({ sample_count := -5, as_cnf_index := -2 } : Options).as_cnf_index
    ∧ (∀ (i : Int) (r : Bool),
        main lcg 0
            { seed := ({ sample_count := -5, as_cnf_index := -2 } : Options).seed,
              sample_count := ((1 : Nat) : Int), as_cnf_index := i, as_cnf_random := r }
            ["1 0", "a 1 0", "a 5 0"]
          = main lcg 0
            { seed := ({ sample_count := -5, as_cnf_index := -2 } : Options).seed,
              sample_count := ((1 : Nat) : Int) }
            ["1 0", "a 1 0", "a 5 0"])
    ∧ (∀ o2 : Options, o2.sample_count < 0 →
        main lcg 0 o2 ["1 0", "a 1 0", "a 5 0"]
          = main lcg 0 { o2 with sample_count := -1 } ["1 0", "a 1 0", "a 5 0"])
    ∧ (∀ o2 : Options, o2.as_cnf_index < 0 →
        main lcg 0 o2 ["1 0", "a 1 0", "a 5 0"]
          = main lcg 0 { o2 with as_cnf_index := -1 } ["1 0", "a 1 0", "a 5 0"]) :=
  ⟨by decide, by decide, by decide,
    negative_selectors_fall_through lcg 0 { sample_count := -5, as_cnf_index := -2 }
      ["1 0", "a 1 0", "a 5 0"] 1 (by decide) (by decide) (by decide)⟩

/-! ## Safety of the cube accesses -/

theorem readCubes_safe (content : List String) :
    ∀ cube ∈ readCubes content, cube.data ≠ [] ∧ firstChar cube = some 'a'
      ∧ parse_cube_literals cube = some (readLits (cube.data.drop 1)) := by
  intro cube hcube
  rw [readCubes_eq] at hcube
  have hc := (List.mem_filter.mp hcube).2
  unfold isCubeLine at hc
  unfold firstChar parse_cube_literals
  cases hd : cube.data with
  | nil => rw [hd] at hc; simp at hc
  | cons c cs =>
    rw [hd] at hc
    simp only [decide_eq_true_eq] at hc
    subst hc
    simp

theorem main_never_terminated (R : Rng) (rd : Nat) (o : Options) (content : List String) :
    (main R rd o content).status ≠ .terminated := by
  by_cases hs : o.sample_count < 0
  · by_cases hm : 0 ≤ o.as_cnf_index ∨ o.as_cnf_random = true
    · rcases as_cnf_cases R rd o content hs hm with h | h | ⟨k, h⟩
      · rw [h]; simp [noCubes]
      · rw [h]; simp [indexOutOfRange]
      · rw [(resolved_run_succeeds R rd o content k h).1]; simp
    · have hs2 : ¬ (0 ≤ o.sample_count) := not_le.mpr hs
      have hi : ¬ (0 ≤ o.as_cnf_index) := fun h => hm (Or.inl h)
      have hr : o.as_cnf_random = false := by
        cases h : o.as_cnf_random with
        | false => rfl
        | true => exact absurd (Or.inr h) hm
      simp [main, hs2, hi, hr]
  · have hs2 : 0 ≤ o.sample_count := not_lt.mp hs
    simp [main, hs2]

/-- C20: every line the read loop stores in the cube list is non-empty and begins with `a`,
so `parse_cube_literals` succeeds on it (its `substr(1)` is in range); no run of `main` ends
by an escaping exception; and an AsCNF run either stops at one of its two error exits or
reaches `cubes[cube_index]` with an index `k` that is the position drawn (random variant) or
the supplied index minus one (index variant) and satisfies `k < cube_count`. -/
theorem cube_access_is_safe (R : Rng) (rd : Nat) (o : Options) (content : List String) :
    (∀ cube ∈ readCubes content, cube.data ≠ [] ∧ firstChar cube = some 'a'
        ∧ parse_cube_literals cube ≠ none)
    ∧ (main R rd o content).status ≠ .terminated
    ∧ (o.sample_count < 0 → (0 ≤ o.as_cnf_index ∨ o.as_cnf_random = true) →
        main R rd o content = noCubes
        ∨ main R rd o content = indexOutOfRange o.as_cnf_index
        ∨ ∃ k, Resolves R rd o content k ∧ k < (readCubes content).length
            ∧ main R rd o content = emitCnf content (readCubes content) k
            ∧ ∃ cube, (readCubes content)[k]? = some cube
                ∧ parse_cube_literals cube ≠ none) := by
  refine ⟨?_, main_never_terminated R rd o content, ?_⟩
  · intro cube hcube
    have h := readCubes_safe content cube hcube
    exact ⟨h.1, h.2.1, by rw [h.2.2]; simp⟩
  · intro hs hm
    rcases as_cnf_cases R rd o content hs hm with h | h | ⟨k, h⟩
    · exact Or.inl h
    · exact Or.inr (Or.inl h)
    · have hk := resolves_lt R rd o content k h
      have hcube : (content.filter isCubeLine)[k]? = some (content.filter isCubeLine)[k] :=
        List.getElem?_eq_getElem hk
      refine Or.inr (Or.inr ⟨k, h, ?_, ?_, ?_⟩)
      · rw [readCubes_eq]; exact hk
      · rw [readCubes_eq]; exact main_as_cnf R rd o content k h
      · rw [readCubes_eq]
        refine ⟨_, hcube, ?_⟩
        rw [(emitCnf_eq content k _ hcube).1]
        simp

/-! ## Reading a whole line -/

theorem extractInt_stop (s : List Char) (h : isStop s = true) : extractInt s = none := by
  unfold isStop at h
  unfold extractInt
  cases hd : s.dropWhile isSpace with
  | nil => simp [splitSign]
  | cons c cs =>
    rw [hd] at h
    simp only [Bool.and_eq_true, Bool.not_eq_true', bne_iff_ne, ne_eq] at h
    obtain ⟨⟨hdg, hm⟩, hp⟩ := h
    have h2 : splitSign (c :: cs) = (false, c :: cs) := by
      rcases splitSign_cases (c :: cs) with ⟨r, hr, _⟩ | ⟨r, hr, _⟩ | ⟨_, _, hs⟩
      · simp only [List.cons.injEq] at hr; exact absurd hr.1 hm
      · simp only [List.cons.injEq] at hr; exact absurd hr.1 hp
      · exact hs
    simp only [h2]
    simp [List.takeWhile, hdg]

theorem isStop_head (s : List Char) (h : isStop s = true) :
    ∀ c ∈ s.head?, isDigitChar c = false := by
  cases s with
  | nil => simp
  | cons c cs =>
    intro d hd
    simp at hd
    subst hd
    cases hsp : isSpace c with
    | true => exact isSpace_not_digit c hsp
    | false =>
      unfold isStop at h
      simp only [List.dropWhile, hsp] at h
      simp only [Bool.and_eq_true, Bool.not_eq_true'] at h
      exact h.1.1

/-- The extraction loop on a well-formed reading returns its literals. -/
theorem readLits_reading (r : Reading) (h : r.ok = true) : readLits r.text = r.values := by
  unfold Reading.ok at h
  simp only [Bool.and_eq_true] at h
  obtain ⟨hcells, hstop⟩ := h
  have hnil : readLits r.stop = [] := readLits_of_extract_none _ (extractInt_stop _ hstop)
  have hhead := isStop_head _ hstop
  unfold Reading.text Reading.values
  cases hc : r.cells with
  | nil => simpa [renderTokens] using hnil
  | cons p ps =>
    rw [hc] at hcells
    unfold wellFormedCells at hcells
    simp only [Bool.and_eq_true] at hcells
    obtain ⟨⟨hsep, htok⟩, hps0⟩ := hcells
    have hps : ∀ q ∈ ps, wellFormedCell q = true := List.all_eq_true.mp hps0
    rw [renderTokens_cons, readLits_unfold,
      extractInt_token p.1 p.2 _ hsep htok (renderTokens_head ps r.stop hps hhead)]
    simp only [List.map_cons, List.takeWhile_cons]
    by_cases hz : tokenValue p.2 = 0
    · simp [hz]
    · simp [hz, readLits_tokens ps r.stop hps hhead hnil]

/-! ## The clause count of the header -/

/-- C5, as stated, fails: on the file (blank), `1 0`, `a 1 0` with `--as-cnf 1` two lines are
of Clause kind, the blank one included, and the resolved cube has one literal, yet the
header is `p cnf 1 2`: it declares 2 clauses, not 2 + 1, whatever the variable count. -/
theorem header_clause_count_skips_blank_line :
    (main lcg 0 { as_cnf_index := 1 } ["", "1 0", "a 1 0"]).out.head? = some (cnfHeader 1 2)
    ∧ (["", "1 0", "a 1 0"].filter (fun line => classify line = .clause)).length = 2
    ∧ parse_cube_literals "a 1 0" = some [1]
    ∧ ∀ nvars : Int, (main lcg 0 { as_cnf_index := 1 } ["", "1 0", "a 1 0"]).out.head?
        ≠ some (cnfHeader nvars
            ((["", "1 0", "a 1 0"].filter (fun line => classify line = .clause)).length
              + [(1 : Int)].length)) := by
  have hout : (main lcg 0 { as_cnf_index := 1 } ["", "1 0", "a 1 0"]).out.head?
      = some "p cnf 1 2" := by decide
  have hlen : (["", "1 0", "a 1 0"].filter (fun line => classify line = .clause)).length = 2 := by
    decide
  refine ⟨by decide, hlen, by decide, ?_⟩
  intro nvars h
  rw [hout, hlen] at h
  have h2 := congrArg String.data (Option.some.inj h)
  rw [cnfHeader_data] at h2
  change ['p', ' ', 'c', 'n', 'f', ' ', '1', ' ', '2']
    = ['p', ' ', 'c', 'n', 'f', ' '] ++ (toString nvars).data ++ [' '] ++ ['3'] at h2
  have h3 := congrArg List.reverse h2
  simp at h3

/-- C5, amended: in AsCNF mode, for every file with a resolvable cube, the clause count
declared in the synthesized header is the number of NON-EMPTY lines of the file whose first
character is none of `c`, `p`, `a`, plus the number of literals parsed from the resolved
cube; when the cube is the marker `a` followed by a well-formed reading, those literals are
the values of its tokens before the first 0. -/
theorem as_cnf_declares_nonempty_clause_count (R : Rng) (rd : Nat) (o : Options)
    (content : List String) (k : Nat) (r : Reading) (h : Resolves R rd o content k) :
    ∃ cube lits nvars, (content.filter isCubeLine)[k]? = some cube
      ∧ parse_cube_literals cube = some lits
      ∧ (main R rd o content).out.head?
          = some (cnfHeader nvars
              ((content.filter
                  (fun line => classify line = .clause && !line.data.isEmpty)).length
                + lits.length))
      ∧ (r.ok = true → cube.data = 'a' :: r.text → lits = r.values) := by
  have hk := resolves_lt R rd o content k h
  have hcube : (content.filter isCubeLine)[k]? = some (content.filter isCubeLine)[k] :=
    List.getElem?_eq_getElem hk
  have he := emitCnf_eq content k _ hcube
  rw [main_resolved R rd o content k _ h hcube, count_clauses_eq, filter_clause_lines]
  refine ⟨_, _, _, hcube, he.1, rfl, ?_⟩
  intro hr hdata
  rw [hdata, List.drop_succ_cons, List.drop_zero]
  exact readLits_reading r hr

/-- A concrete run on which the hypothesis above holds, with the conclusion it gives. -/
theorem as_cnf_declares_nonempty_clause_count_witness :
    Resolves lcg 0 { as_cnf_random := true } ["p cnf 2 1", "", "1 2 0", "a 1 0", "a -1 2 0"] 0
    ∧ ∃ cube lits nvars,
      (["p cnf 2 1", "", "1 2 0", "a 1 0", "a -1 2 0"].filter isCubeLine)[0]? = some cube
      ∧ parse_cube_literals cube = some lits
      ∧ (main lcg 0 { as_cnf_random := true }
            ["p cnf 2 1", "", "1 2 0", "a 1 0", "a -1 2 0"]).out.head?
          = some (cnfHeader nvars
              ((["p cnf 2 1", "", "1 2 0", "a 1 0", "a -1 2 0"].filter
                  (fun line => classify line = .clause && !line.data.isEmpty)).length
                + lits.length))
      ∧ ((⟨[([' '], ['1']), ([' '], ['0'])], []⟩ : Reading).ok = true →
          cube.data = 'a' :: (⟨[([' '], ['1']), ([' '], ['0'])], []⟩ : Reading).text →
          lits = (⟨[([' '], ['1']), ([' '], ['0'])], []⟩ : Reading).values) :=
  ⟨by unfold Resolves; decide,
    as_cnf_declares_nonempty_clause_count lcg 0 { as_cnf_random := true }
      ["p cnf 2 1", "", "1 2 0", "a 1 0", "a -1 2 0"] 0 ⟨[([' '], ['1']), ([' '], ['0'])], []⟩
      (by unfold Resolves; decide)⟩

/-! ## The largest variable in terms of the tokens of the lines -/

theorem shapedLiterals_eq (shape : String → Reading) (content cubes : List String)
    (hlines : ∀ line ∈ content, classify line = .clause →
      (shape line).ok = true ∧ line.data = (shape line).text)
    (hcubes : ∀ cube ∈ cubes, (shape cube).ok = true ∧ cube.data = 'a' :: (shape cube).text) :
    clauseLiterals content ++ cubeLiterals cubes = shapedLiterals shape content cubes
    ∧ ∀ cube ∈ cubes, isCubeLine cube = true := by
  have h1 : clauseLiterals content
      = (content.filter (fun line => classify line = .clause)).flatMap
          (fun line => (shape line).values) := by
    unfold clauseLiterals
    apply List.flatMap_congr
    intro line hline
    obtain ⟨hmem, hkind⟩ := List.mem_filter.mp hline
    obtain ⟨hok, hdata⟩ := hlines line hmem (by simpa using hkind)
    rw [hdata]
    exact readLits_reading _ hok
  have h2 : cubeLiterals cubes = cubes.flatMap (fun cube => (shape cube).values) := by
    unfold cubeLiterals
    apply List.flatMap_congr
    intro cube hcube
    obtain ⟨hok, hdata⟩ := hcubes cube hcube
    rw [hdata, List.drop_succ_cons, List.drop_zero]
    exact readLits_reading _ hok
  refine ⟨by rw [h1, h2]; rfl, ?_⟩
  intro cube hcube
  unfold isCubeLine
  rw [(hcubes cube hcube).2]
  simp

/-- C16, as stated, fails, in two ways.  The line `3 12abc 0` has the tokens `3`, `12abc`,
`0`; the integer tokens before its first token that is no integer are `3` alone, of largest
absolute value 3, and `count_variables` returns 12: the numeric prefix of `12abc` is read.
On the line `-2147483648 5 0` the largest absolute value is 2147483648 and
`count_variables` returns 5. -/
theorem count_variables_reads_numeric_prefix :
    "3 12abc 0".data = [' '].intercalate [['3'], ['1', '2', 'a', 'b', 'c'], ['0']]
    ∧ claimedLiterals [['3'], ['1', '2', 'a', 'b', 'c'], ['0']] = [3]
    ∧ maxAbs (claimedLiterals [['3'], ['1', '2', 'a', 'b', 'c'], ['0']]) = 3
    ∧ count_variables ["3 12abc 0"] [] = some 12
    ∧ count_variables ["3 12abc 0"] []
        ≠ some (maxAbs (claimedLiterals [['3'], ['1', '2', 'a', 'b', 'c'], ['0']]))
    ∧ "-2147483648 5 0".data = [' '].intercalate ["-2147483648".data, ['5'], ['0']]
    ∧ maxAbs (claimedLiterals ["-2147483648".data, ['5'], ['0']]) = 2147483648
    ∧ count_variables ["-2147483648 5 0"] [] = some 5 := by
  decide

/-- C16, amended: for every line list and cube list in which each Clause-kind line, and each
cube after its marker `a`, is a run of integer tokens separated by whitespace followed by
a text where reading stops (nothing, whitespace, or a character that is neither a digit nor
a sign, possibly right after a number as in `12abc`), and in which no literal is `-2^31`,
`count_variables` returns the largest absolute value among the values of those tokens, each
line and cube read up to (not including) its first 0; it returns 0 when there is no such
literal; it bounds the absolute value of each of them; and removing a line that is empty or
begins with `c` or `p` does not change the result. -/
theorem count_variables_max_over_token_values (shape : String → Reading)
    (content cubes : List String)
    (hlines : ∀ line ∈ content, classify line = .clause →
      (shape line).ok = true ∧ line.data = (shape line).text)
    (hcubes : ∀ cube ∈ cubes, (shape cube).ok = true ∧ cube.data = 'a' :: (shape cube).text)
    (hmin : ∀ x ∈ shapedLiterals shape content cubes, x ≠ -2147483648) :
    count_variables content cubes = some (maxAbs (shapedLiterals shape content cubes))
    ∧ (shapedLiterals shape content cubes = [] → count_variables content cubes = some 0)
    ∧ (∀ x ∈ shapedLiterals shape content cubes,
        (x.natAbs : Int) ≤ maxAbs (shapedLiterals shape content cubes))
    ∧ (∀ pre post line, content = pre ++ line :: post →
        (line.data = [] ∨ firstChar line = some 'c' ∨ firstChar line = some 'p') →
        count_variables (pre ++ post) cubes = count_variables content cubes) := by
  obtain ⟨heq, hc⟩ := shapedLiterals_eq shape content cubes hlines hcubes
  have hold := count_variables_eq_maxAbs content cubes hc (by rw [heq]; exact hmin)
  rw [heq] at hold
  exact hold

/-- A concrete input on which the hypotheses above hold, with the conclusion they give. -/
theorem count_variables_max_over_token_values_witness :
    (∀ line ∈ ["c 99", "p cnf 50 2", "1 -4 0 9", "", "3 12abc 0"], classify line = .clause →
      (sampleShape line).ok = true ∧ line.data = (sampleShape line).text)
    ∧ (∀ cube ∈ ["a -7 2 0", "a 3 0"],
        (sampleShape cube).ok = true ∧ cube.data = 'a' :: (sampleShape cube).text)
    ∧ (∀ x ∈ shapedLiterals sampleShape ["c 99", "p cnf 50 2", "1 -4 0 9", "", "3 12abc 0"]
          ["a -7 2 0", "a 3 0"], x ≠ -2147483648)
    ∧ shapedLiterals sampleShape ["c 99", "p cnf 50 2", "1 -4 0 9", "", "3 12abc 0"]
        ["a -7 2 0", "a 3 0"] = [1, -4, 3, 12, -7, 2, 3]
    ∧ count_variables ["c 99", "p cnf 50 2", "1 -4 0 9", "", "3 12abc 0"] ["a -7 2 0", "a 3 0"]
        = some (maxAbs (shapedLiterals sampleShape
            ["c 99", "p cnf 50 2", "1 -4 0 9", "", "3 12abc 0"] ["a -7 2 0", "a 3 0"]))
    ∧ (shapedLiterals sampleShape ["c 99", "p cnf 50 2", "1 -4 0 9", "", "3 12abc 0"]
          ["a -7 2 0", "a 3 0"] = [] →
        count_variables ["c 99", "p cnf 50 2", "1 -4 0 9", "", "3 12abc 0"]
          ["a -7 2 0", "a 3 0"] = some 0)
    ∧ (∀ x ∈ shapedLiterals sampleShape ["c 99", "p cnf 50 2", "1 -4 0 9", "", "3 12abc 0"]
          ["a -7 2 0", "a 3 0"],
        (x.natAbs : Int) ≤ maxAbs (shapedLiterals sampleShape
          ["c 99", "p cnf 50 2", "1 -4 0 9", "", "3 12abc 0"] ["a -7 2 0", "a 3 0"]))
    ∧ (∀ pre post line,
        ["c 99", "p cnf 50 2", "1 -4 0 9", "", "3 12abc 0"] = pre ++ line :: post →
        (line.data = [] ∨ firstChar line = some 'c' ∨ firstChar line = some 'p') →
        count_variables (pre ++ post) ["a -7 2 0", "a 3 0"]
          = count_variables ["c 99", "p cnf 50 2", "1 -4 0 9", "", "3 12abc 0"]
              ["a -7 2 0", "a 3 0"]) :=
  ⟨by decide, by decide, by decide, by decide,
    count_variables_max_over_token_values sampleShape
      ["c 99", "p cnf 50 2", "1 -4 0 9", "", "3 12abc 0"] ["a -7 2 0", "a 3 0"]
      (by decide) (by decide) (by decide)⟩

/-- C18, amended: for a fixed file, two AsCNF runs that resolve the cubes at positions `k1`
and `k2` declare the same variable count in their headers; PROVIDED no literal of the file is
`-2^31`, that count is the largest absolute literal over the clause lines and ALL cube lines
of the file, and it is at least the absolute value of every unit-clause literal either run
emits; when moreover the clause lines and the cubes are well-formed readings, it is the
largest absolute value of their tokens. -/
theorem as_cnf_nvars_independent_of_cube (R : Rng) (rd : Nat) (o1 o2 : Options)
    (content : List String) (k1 k2 : Nat) (h1 : Resolves R rd o1 content k1)
    (h2 : Resolves R rd o2 content k2) :
    ∃ nvars c1 c2 cube1 cube2,
      (content.filter isCubeLine)[k1]? = some cube1
      ∧ (content.filter isCubeLine)[k2]? = some cube2
      ∧ (main R rd o1 content).out
          = cnfHeader nvars c1 :: (content.filter (fun line => !skippedAsClause line)
              ++ unitClauses (readLits (cube1.data.drop 1)))
      ∧ (main R rd o2 content).out
          = cnfHeader nvars c2 :: (content.filter (fun line => !skippedAsClause line)
              ++ unitClauses (readLits (cube2.data.drop 1)))
      ∧ ((∀ x ∈ clauseLiterals content ++ cubeLiterals (content.filter isCubeLine),
            x ≠ -2147483648) →
          nvars = maxAbs (clauseLiterals content ++ cubeLiterals (content.filter isCubeLine))
          ∧ (∀ lit ∈ readLits (cube1.data.drop 1), (lit.natAbs : Int) ≤ nvars)
          ∧ (∀ lit ∈ readLits (cube2.data.drop 1), (lit.natAbs : Int) ≤ nvars))
      ∧ (∀ shape : String → Reading,
          (∀ line ∈ content, classify line = .clause →
            (shape line).ok = true ∧ line.data = (shape line).text) →
          (∀ cube ∈ content.filter isCubeLine,
            (shape cube).ok = true ∧ cube.data = 'a' :: (shape cube).text) →
          (∀ x ∈ shapedLiterals shape content (content.filter isCubeLine),
            x ≠ -2147483648) →
          nvars = maxAbs (shapedLiterals shape content (content.filter isCubeLine))) := by
  have hk1 := resolves_lt R rd o1 content k1 h1
  have hk2 := resolves_lt R rd o2 content k2 h2
  have hc1 : (content.filter isCubeLine)[k1]? = some (content.filter isCubeLine)[k1] :=
    List.getElem?_eq_getElem hk1
  have hc2 : (content.filter isCubeLine)[k2]? = some (content.filter isCubeLine)[k2] :=
    List.getElem?_eq_getElem hk2
  refine ⟨_, _, _, _, _, hc1, hc2,
    congrArg Outcome.out (main_resolved R rd o1 content k1 _ h1 hc1),
    congrArg Outcome.out (main_resolved R rd o2 content k2 _ h2 hc2), ?_, ?_⟩
  · intro hmin
    rw [getLast_insertAbs _ hmin]
    refine ⟨rfl, ?_, ?_⟩
    · intro lit hlit
      exact le_maxAbs _ lit (List.mem_append_right _
        (mem_cubeLiterals_of_getElem? _ k1 _ hc1 lit hlit))
    · intro lit hlit
      exact le_maxAbs _ lit (List.mem_append_right _
        (mem_cubeLiterals_of_getElem? _ k2 _ hc2 lit hlit))
  · intro shape hlines hcubes hmin
    have heq := (shapedLiterals_eq shape content (content.filter isCubeLine) hlines hcubes).1
    rw [heq, getLast_insertAbs _ hmin]

/-- A concrete pair of runs on which the hypotheses above hold, with the conclusion they
give. -/
theorem as_cnf_nvars_independent_of_cube_witness :
    Resolves lcg 0 { as_cnf_index := 1 } ["1 0", "a 1 0", "a 5 0"] 0
    ∧ Resolves lcg 0 { as_cnf_index := 2 } ["1 0", "a 1 0", "a 5 0"] 1
    ∧ ∃ nvars c1 c2 cube1 cube2,
      (["1 0", "a 1 0", "a 5 0"].filter isCubeLine)[0]? = some cube1
      ∧ (["1 0", "a 1 0", "a 5 0"].filter isCubeLine)[1]? = some cube2
      ∧ (main lcg 0 { as_cnf_index := 1 } ["1 0", "a 1 0", "a 5 0"]).out
          = cnfHeader nvars c1
            :: (["1 0", "a 1 0", "a 5 0"].filter (fun line => !skippedAsClause line)
              ++ unitClauses (readLits (cube1.data.drop 1)))
      ∧ (main lcg 0 { as_cnf_index := 2 } ["1 0", "a 1 0", "a 5 0"]).out
          = cnfHeader nvars c2
            :: (["1 0", "a 1 0", "a 5 0"].filter (fun line => !skippedAsClause line)
              ++ unitClauses (readLits (cube2.data.drop 1)))
      ∧ ((∀ x ∈ clauseLiterals ["1 0", "a 1 0", "a 5 0"]
              ++ cubeLiterals (["1 0", "a 1 0", "a 5 0"].filter isCubeLine),
            x ≠ -2147483648) →
          nvars = maxAbs (clauseLiterals ["1 0", "a 1 0", "a 5 0"]
              ++ cubeLiterals (["1 0", "a 1 0", "a 5 0"].filter isCubeLine))
          ∧ (∀ lit ∈ readLits (cube1.data.drop 1), (lit.natAbs : Int) ≤ nvars)
          ∧ (∀ lit ∈ readLits (cube2.data.drop 1), (lit.natAbs : Int) ≤ nvars))
      ∧ (∀ shape : String → Reading,
          (∀ line ∈ ["1 0", "a 1 0", "a 5 0"], classify line = .clause →
            (shape line).ok = true ∧ line.data = (shape line).text) →
          (∀ cube ∈ ["1 0", "a 1 0", "a 5 0"].filter isCubeLine,
            (shape cube).ok = true ∧ cube.data = 'a' :: (shape cube).text) →
          (∀ x ∈ shapedLiterals shape ["1 0", "a 1 0", "a 5 0"]
              (["1 0", "a 1 0", "a 5 0"].filter isCubeLine), x ≠ -2147483648) →
          nvars = maxAbs (shapedLiterals shape ["1 0", "a 1 0", "a 5 0"]
              (["1 0", "a 1 0", "a 5 0"].filter isCubeLine))) :=
  ⟨by unfold Resolves; decide, by unfold Resolves; decide,
    as_cnf_nvars_independent_of_cube lcg 0 { as_cnf_index := 1 } { as_cnf_index := 2 }
      ["1 0", "a 1 0", "a 5 0"] 0 1 (by unfold Resolves; decide) (by unfold Resolves; decide)⟩

/-- C18, as stated, fails: on the file `a -2147483648 7 0` with `--as-cnf 1` the header
declares 7 variables and the run emits the unit clause `-2147483648 0`, whose literal has
absolute value 2147483648, above the declared count and equal to the largest absolute
literal of the file. -/
theorem nvars_below_most_negative_literal :
    (main lcg 0 { as_cnf_index := 1 } ["a -2147483648 7 0"]).out
        = [cnfHeader 7 2, "-2147483648 0", "7 0"]
    ∧ parse_cube_literals "a -2147483648 7 0" = some [-2147483648, 7]
    ∧ ¬ (((-2147483648 : Int).natAbs : Int) ≤ 7)
    ∧ maxAbs (clauseLiterals ["a -2147483648 7 0"]
        ++ cubeLiterals (["a -2147483648 7 0"].filter isCubeLine)) = 2147483648 := by
  decide

end CubingTools
